/-
Verification of the EcoLogiTrack route construction engine.

Shallow embedding of the two near-duplicate constructor implementations:
  * `src/optimization/route_optimizer.py`  (haversine_distance,
    create_distance_matrix with the PUNJAB_CITIES table and a flat 50.0
    default for unknown cities, simple_vrp)
  * `src/backend/app.py`  (create_distance_matrix with the CITY_COORDINATES
    table and a depot-coordinate fallback, greedy_route_optimization)

The capacity-constrained greedy loop shared by both implementations is
embedded once (`vrpGo`), parametrised by the distance matrix (as a function
`ℕ → ℕ → α` over a linear ordered field, so that theorems cover the real
matrix and witnesses can be evaluated over `ℚ`) and by the mid-loop
route-closing function, which is where the two implementations differ:
`simple_vrp` closes a route only when it has progressed past the depot
(`closeIfOpen`), while `greedy_route_optimization` appends the depot
unconditionally (`closeAlways`).

Geographic coordinates are stored as exact rationals (the decimal literals
of the source); the haversine computation itself is over `ℝ`.
-/
import Mathlib

/-- Rounding to two decimal places, `round(x, 2)` in the source.  Python
uses round-half-to-even; this model uses `round` (round-half-up), which
agrees with Python except when `x * 100` is exactly a half-integer — a case
no claim in this development touches. -/
def round2 {α : Type} [LinearOrderedCommRing α] [FloorRing α] [Div α] (x : α) : α :=
  ((round (x * 100) : ℤ) : α) / 100

/-- The two-argument arctangent, `math.atan2(y, x)`. -/
noncomputable def atan2 (y x : ℝ) : ℝ :=
  if 0 < x then Real.arctan (y / x)
  else if x = 0 then
    (if 0 < y then Real.pi / 2 else if y < 0 then -(Real.pi / 2) else 0)
  else
    (if 0 ≤ y then Real.arctan (y / x) + Real.pi else Real.arctan (y / x) - Real.pi)

/-- Degrees to radians, `math.radians`. -/
noncomputable def radians (x : ℝ) : ℝ := x * Real.pi / 180

/-- `haversine_distance(lat1, lon1, lat2, lon2)`: great-circle distance on a
sphere of radius 6371 km.  Identical in both source files. -/
noncomputable def haversine_distance (lat1 lon1 lat2 lon2 : ℝ) : ℝ :=
  let R : ℝ := 6371
  let lat1_rad := radians lat1
  let lat2_rad := radians lat2
  let delta_lat := radians (lat2 - lat1)
  let delta_lon := radians (lon2 - lon1)
  let a := Real.sin (delta_lat / 2) ^ 2 +
    Real.cos lat1_rad * Real.cos lat2_rad * Real.sin (delta_lon / 2) ^ 2
  let c := 2 * atan2 (Real.sqrt a) (Real.sqrt (1 - a))
  R * c

/-- Association-list lookup standing in for the Python `dict` access: the
first pair whose key equals `s`, if any (`dict` keys are unique here). -/
def lookupCoord (tbl : List (String × ℚ × ℚ)) (s : String) : Option (ℚ × ℚ) :=
  (tbl.find? fun p => p.1 == s).map fun p => p.2

/-- `str.lower()`: lowercasing, modelled by mapping `Char.toLower` over the
characters (extensionally the same as `String.toLower`, written this way so
that proofs can evaluate it on literals). -/
def pyLower (s : String) : String := ⟨s.data.map Char.toLower⟩

namespace RouteOpt

/-- `PUNJAB_CITIES` of `route_optimizer.py` (name fields dropped; only the
coordinates are read by the code under verification). -/
def PUNJAB_CITIES : List (String × ℚ × ℚ) :=
  [("ludhiana", 30.9010, 75.8573), ("jalandhar", 31.3260, 75.5762),
   ("amritsar", 31.6340, 74.8723), ("patiala", 30.3398, 76.3869),
   ("bathinda", 30.2110, 74.9455), ("mohali", 30.7046, 76.7179),
   ("hoshiarpur", 31.5330, 75.9120), ("firozpur", 30.9257, 74.6142),
   ("moga", 30.8158, 75.1705), ("kapurthala", 31.3800, 75.3800)]

/-- `create_distance_matrix` of `route_optimizer.py`: zero diagonal;
off-diagonal entries are the rounded haversine distance when BOTH lowercased
city names are in `PUNJAB_CITIES`, and the flat default `50.0` otherwise.
The nested fill loops over a zero-initialised matrix are rendered as nested
maps over `range`. -/
noncomputable def create_distance_matrix (cities : List String) : List (List ℝ) :=
  (List.range cities.length).map fun i =>
    (List.range cities.length).map fun j =>
      if i = j then 0
      else
        match lookupCoord PUNJAB_CITIES (pyLower (cities.getD i "")),
              lookupCoord PUNJAB_CITIES (pyLower (cities.getD j "")) with
        | some c1, some c2 =>
            round2 (haversine_distance (c1.1 : ℝ) (c1.2 : ℝ) (c2.1 : ℝ) (c2.2 : ℝ))
        | _, _ => 50

end RouteOpt

namespace App

/-- `CITY_COORDINATES` of `app.py` (includes the `'depot'` key). -/
def CITY_COORDINATES : List (String × ℚ × ℚ) :=
  [("ludhiana", 30.9010, 75.8573), ("jalandhar", 31.3260, 75.5762),
   ("amritsar", 31.6340, 74.8723), ("patiala", 30.3398, 76.3869),
   ("bathinda", 30.2110, 74.9455), ("mohali", 30.7046, 76.7179),
   ("hoshiarpur", 31.5330, 75.9120), ("depot", 30.9010, 75.8573)]

/-- The value of `CITY_COORDINATES['depot']` — the fallback coordinate. -/
def depotCoordinate : ℚ × ℚ := (30.9010, 75.8573)

/-- `CITY_COORDINATES.get(loc, CITY_COORDINATES['depot'])`: a lookup that
never fails, defaulting unknown identifiers to the depot coordinate. -/
def resolve (s : String) : ℚ × ℚ :=
  (lookupCoord CITY_COORDINATES s).getD depotCoordinate

/-- `create_distance_matrix` of `app.py`: zero diagonal; off-diagonal
entries are the rounded haversine distance between the resolved (with depot
fallback) coordinates of the lowercased identifiers. -/
noncomputable def create_distance_matrix (locations : List String) : List (List ℝ) :=
  (List.range locations.length).map fun i =>
    (List.range locations.length).map fun j =>
      if i = j then 0
      else
        round2 (haversine_distance
          ((resolve (pyLower (locations.getD i ""))).1 : ℝ)
          ((resolve (pyLower (locations.getD i ""))).2 : ℝ)
          ((resolve (pyLower (locations.getD j ""))).1 : ℝ)
          ((resolve (pyLower (locations.getD j ""))).2 : ℝ))

end App

/-- `matrix[i][j]` on a nested list (both indices in range in every source
access; out-of-range reads default to `0`). -/
def matEntry (m : List (List ℝ)) (i j : ℕ) : ℝ := (m.getD i []).getD j 0

/-
The capacity-constrained greedy constructor, shared core.

`α` is the numeric type of demands, loads, capacities and distances (all
Python floats); theorems are stated over any linear ordered field so that
they cover `ℝ` (the real run) while witnesses evaluate over `ℚ`.
-/

/-- One vehicle's working state: `{'stops': [...], 'load': ..,
'distance': ..}` in `app.py`; `route_optimizer.py` additionally carries
`vehicle_id` and a parallel `cities` list, reconstructed in the `simple_vrp`
wrapper below. -/
structure Veh (α : Type) where
  stops : List ℕ
  load : α
  distance : α
deriving Repr, DecidableEq

/-- One step of the candidate scan `for i in range(1, n)`: keep the best
`(location, distance)` seen so far; take `i` when it is unvisited, fits the
remaining capacity, and is strictly nearer than the incumbent.  The Python
incumbent starts as `(None, inf)`, so the first feasible candidate is always
taken: the `none` accumulator case.  `visited[i]` is read with a `getD`
default (`true`; the visited list always has length `n` in the wrappers'
runs, so the default is never consulted there).  `demands[i]` is read with
default `0` HERE, but the read is guarded in `vrpGo` by `demandOutOfRange`:
as in the source, the demand of `i` is read only when `i` is unvisited, and
an out-of-range read raises `IndexError` for the whole iteration (the
`demErr` branch of `vrpGo`), so within a non-raising iteration every demand
this step reads is in range and the default is never consulted. -/
def scanStep {α : Type} [LinearOrderedCommRing α] (D : ℕ → ℕ → α) (dem : List α)
    (visited : List Bool) (load cap : α) (cur : ℕ)
    (acc : Option (ℕ × α)) (i : ℕ) : Option (ℕ × α) :=
  if visited.getD i true = false then
    if load + dem.getD i 0 ≤ cap then
      match acc with
      | none => some (i, D cur i)
      | some (b, bd) => if D cur i < bd then some (i, D cur i) else some (b, bd)
    else acc
  else acc

/-- The full scan over `range(1, n)` selecting the nearest feasible
unvisited location (first-encountered wins ties, since the update uses a
strict comparison). -/
def selectBest {α : Type} [LinearOrderedCommRing α] (D : ℕ → ℕ → α) (dem : List α)
    (visited : List Bool) (load cap : α) (cur n : ℕ) : Option (ℕ × α) :=
  (List.range' 1 (n - 1)).foldl (scanStep D dem visited load cap cur) none

/-- Mid-loop route closing of `route_optimizer.py` (`simple_vrp`, also its
final closing pass): append the depot and the return-hop distance only if
the route has progressed past the depot (`route[-1] != 0`).  After the
append, `route[-2]` is the previous last stop. -/
def closeIfOpen {α : Type} [LinearOrderedCommRing α] (D : ℕ → ℕ → α) (v : Veh α) : Veh α :=
  if v.stops.getLastD 0 ≠ 0 then
    { v with stops := v.stops ++ [0], distance := v.distance + D (v.stops.getLastD 0) 0 }
  else v

/-- Mid-loop route closing of `app.py` (`greedy_route_optimization`):
append the depot and the return-hop distance unconditionally. -/
def closeAlways {α : Type} [LinearOrderedCommRing α] (D : ℕ → ℕ → α) (v : Veh α) : Veh α :=
  { v with stops := v.stops ++ [0], distance := v.distance + D (v.stops.getLastD 0) 0 }

/-- Final closing pass of `app.py`: close only routes that progressed past
the depot (`stops[-1] != 0 and len(stops) > 1`). -/
def closeFinalApp {α : Type} [LinearOrderedCommRing α] (D : ℕ → ℕ → α) (v : Veh α) : Veh α :=
  if v.stops.getLastD 0 ≠ 0 ∧ 1 < v.stops.length then closeAlways D v else v

/-- Initial vehicle list: `num_vehicles` copies of `{'stops': [0],
'load': 0, 'distance': 0}`. -/
def initVehicles {α : Type} [LinearOrderedCommRing α] (numV : ℕ) : List (Veh α) :=
  (List.range numV).map fun _ => ⟨[0], 0, 0⟩

/-- Initial visited flags: `[False] * n` then `visited[0] = True`.  (For
`n = 0` the Python assignment raises; callers guard that case.) -/
def initVisited (n : ℕ) : List Bool := (List.replicate n false).set 0 true

/-- Outcome of the construction pass: the final vehicle states and visited
flags, the `IndexError` raised by `vehicles[current_vehicle]` when the
fleet is empty (`idxErr`), or the `IndexError` raised by `demands[i]` when
the candidate scan reads the demand of an unvisited location beyond the end
of the demand list (`demErr` — reachable in `greedy_route_optimization`,
which never validates list lengths; unreachable in `simple_vrp` behind its
equal-length validation). -/
inductive VrpOut (α : Type) where
  | ok (vehicles : List (Veh α)) (visited : List Bool)
  | idxErr
  | demErr
deriving Repr, DecidableEq

/-- The candidate scan `for i in range(1, n)` reads `demands[i]` for every
unvisited index `i` (the read sits under `if not visited[i]` and before the
iteration's outcome is decided): when some unvisited `i ∈ [1, n)` lies
beyond the end of the demand list, the source raises `IndexError` for the
whole iteration, discarding any candidate found.  This flag detects that
condition for the current visited state. -/
def demandOutOfRange {α : Type} (dem : List α) (visited : List Bool) (n : ℕ) : Bool :=
  (List.range' 1 (n - 1)).any fun i => !(visited.getD i true) && decide (dem.length ≤ i)

/-- The greedy construction loop `while not all(visited): ...`, shared by
both implementations up to the mid-loop closing function `mc`.  `fuel`
bounds the number of loop iterations still permitted; `none` means the
bound was hit (`vrpGo_terminates` shows `(n - 1) + numV` always suffices).
Each iteration: read the cursor vehicle (IndexError if out of range —
possible only for an empty fleet), then scan for the nearest feasible
unvisited location — the scan raises IndexError when it reads the demand
of an unvisited location beyond the end of the demand list (`demErr`); on
success append the chosen location, add its demand and distance, mark it
visited; otherwise close the route with `mc`, advance the cursor, and stop
early when the fleet is exhausted. -/
def vrpGo {α : Type} [LinearOrderedCommRing α] (D : ℕ → ℕ → α) (dem : List α)
    (cap : α) (n numV : ℕ) (mc : (ℕ → ℕ → α) → Veh α → Veh α) :
    ℕ → List (Veh α) → List Bool → ℕ → Option (VrpOut α)
  | 0, vehicles, visited, _ =>
      if visited.all id then some (.ok vehicles visited) else none
  | fuel + 1, vehicles, visited, cursor =>
      if visited.all id then some (.ok vehicles visited)
      else
        match vehicles[cursor]? with
        | none => some .idxErr
        | some v =>
          if demandOutOfRange dem visited n = true then some .demErr
          else
          match selectBest D dem visited v.load cap (v.stops.getLastD 0) n with
          | some (best, bestDist) =>
              vrpGo D dem cap n numV mc fuel
                (vehicles.set cursor
                  ⟨v.stops ++ [best], v.load + dem.getD best 0, v.distance + bestDist⟩)
                (visited.set best true) cursor
          | none =>
              let vehicles2 := vehicles.set cursor (mc D v)
              if numV ≤ cursor + 1 then some (.ok vehicles2 visited)
              else vrpGo D dem cap n numV mc fuel vehicles2 visited (cursor + 1)

/-- A vehicle entry of `simple_vrp`'s result: `vehicle_id` (1-based),
`route`, `load`, `distance` (rounded), and the parallel `cities` name list.
The source appends to `cities` in lockstep with `route` — `'Depot'` exactly
when `0` is appended, `cities[i]` exactly when stop `i ≥ 1` is appended —
so the final list is recovered by mapping over the final route. -/
structure SVeh (α : Type) where
  vehicle_id : ℕ
  route : List ℕ
  load : α
  distance : α
  cities : List String
deriving Repr, DecidableEq

/-- The result dict of `simple_vrp`: `{'vehicles': ..., 'total_distance':
..., 'distance_matrix': ...}`.  There is no field listing unassigned
locations. -/
structure SimpleVrpResult (α : Type) where
  vehicles : List (SVeh α)
  total_distance : α
  distance_matrix : ℕ → ℕ → α

/-- The final closing pass of `simple_vrp` applied to one vehicle: close
the route if it is still open, then round its distance to 2 decimals. -/
def finishVeh {α : Type} [LinearOrderedCommRing α] [FloorRing α] [Div α] (D : ℕ → ℕ → α)
    (v : Veh α) : Veh α :=
  let w := closeIfOpen D v
  { w with distance := round2 w.distance }

/-- Assembly of one entry of `simple_vrp`'s vehicle list from its 0-based
position and final working state, reconstructing `vehicle_id` and the
`cities` name list (see `SVeh`). -/
def toSVeh {α : Type} (cities : List String) (p : ℕ × Veh α) : SVeh α :=
  { vehicle_id := p.1 + 1, route := p.2.stops, load := p.2.load,
    distance := p.2.distance,
    cities := p.2.stops.map fun i => if i = 0 then "Depot" else cities.getD i "" }

/-- `simple_vrp` of `route_optimizer.py`, parametrised by the distance
matrix `D` (the real wrapper below passes the haversine matrix built from
`cities`; the source computes that matrix between validation and the loop).
Validation: list-length mismatch and non-zero depot demand raise
`ValueError`; `demands[0]` on an empty list raises `IndexError`.  The loop
then runs with the guarded mid-loop closing (the demand-read `IndexError`
of the scan is unreachable here: validation forces the demand list to have
exactly the locations' length); afterwards every route is closed if still
open and its distance rounded to 2 decimals. -/
def simple_vrp_with_matrix {α : Type} [LinearOrderedCommRing α] [FloorRing α] [Div α]
    (D : ℕ → ℕ → α) (cities : List String) (demands : List α)
    (num_vehicles : ℕ) (capacity : α) : Except String (SimpleVrpResult α) :=
  if cities.length ≠ demands.length then
    .error "Cities and demands must have same length"
  else
    match demands.head? with
    | none => .error "IndexError: demands[0]"
    | some d0 =>
      if d0 ≠ 0 then .error "Depot (first location) must have 0 demand"
      else
        match vrpGo D demands capacity cities.length num_vehicles closeIfOpen
            ((cities.length - 1) + num_vehicles) (initVehicles num_vehicles)
            (initVisited cities.length) 0 with
        | none => .error "fuel"   -- unreachable, see `vrpGo_terminates`
        | some .idxErr => .error "IndexError: vehicles[current_vehicle]"
        | some .demErr => .error "IndexError: demands[i]"
        | some (.ok vehicles _) =>
          .ok
            { vehicles := (vehicles.map (finishVeh D)).enum.map (toSVeh cities)
              total_distance :=
                round2 ((vehicles.map (finishVeh D)).map (fun v => v.distance)).sum
              distance_matrix := D }

/-- `greedy_route_optimization` of `app.py`, parametrised by the distance
matrix.  No validation is performed: `visited[0] = True` raises
`IndexError` on an empty location list, and a demand list shorter than the
location list makes the candidate scan raise `IndexError` at `demands[i]`
(the `demErr` branch of `vrpGo`).  Otherwise the loop runs with the
unconditional mid-loop closing; afterwards routes that progressed past the
depot and are still open are closed.  Distances are not rounded. -/
def greedy_route_optimization_with_matrix {α : Type} [LinearOrderedCommRing α]
    (D : ℕ → ℕ → α) (locations : List String) (demands : List α)
    (num_vehicles : ℕ) (capacity : α) : Except String (List (Veh α)) :=
  if locations.length = 0 then .error "IndexError: visited[0]"
  else
    match vrpGo D demands capacity locations.length num_vehicles closeAlways
        ((locations.length - 1) + num_vehicles) (initVehicles num_vehicles)
        (initVisited locations.length) 0 with
    | none => .error "fuel"   -- unreachable, see `vrpGo_terminates`
    | some .idxErr => .error "IndexError: routes[current_vehicle]"
    | some .demErr => .error "IndexError: demands[i]"
    | some (.ok routes _) => .ok (routes.map (closeFinalApp D))

/-- The real `simple_vrp`: the loop applied to the haversine distance
matrix built from the city names. -/
noncomputable def simple_vrp (cities : List String) (demands : List ℝ)
    (num_vehicles : ℕ) (capacity : ℝ) : Except String (SimpleVrpResult ℝ) :=
  simple_vrp_with_matrix (matEntry (RouteOpt.create_distance_matrix cities))
    cities demands num_vehicles capacity

/-- The real `greedy_route_optimization`: the loop applied to `app.py`'s
haversine distance matrix. -/
noncomputable def greedy_route_optimization (locations : List String)
    (demands : List ℝ) (num_vehicles : ℕ) (capacity : ℝ) :
    Except String (List (Veh ℝ)) :=
  greedy_route_optimization_with_matrix
    (matEntry (App.create_distance_matrix locations)) locations demands
    num_vehicles capacity

/-
Characterisation of the candidate scan.
-/

/-- Feasibility of candidate `i` for the cursor vehicle: unvisited and
fitting the remaining capacity. -/
def Feas {α : Type} [LinearOrderedCommRing α] (dem : List α) (visited : List Bool)
    (load cap : α) (i : ℕ) : Prop :=
  visited.getD i true = false ∧ load + dem.getD i 0 ≤ cap

instance {α : Type} [LinearOrderedCommRing α] (dem : List α) (visited : List Bool)
    (load cap : α) (i : ℕ) : Decidable (Feas dem visited load cap i) :=
  inferInstanceAs (Decidable (_ ∧ _))

/-- What the scan accumulator means after processing the index list `pre`:
`none` iff no feasible candidate was seen; `some (b, d)` iff `b` is a
feasible candidate of `pre` at distance `d`, no feasible candidate of `pre`
is nearer, and `b` is the lowest-index feasible candidate at distance `d`. -/
def ScanGood {α : Type} [LinearOrderedCommRing α] (D : ℕ → ℕ → α) (dem : List α)
    (visited : List Bool) (load cap : α) (cur : ℕ) (pre : List ℕ) :
    Option (ℕ × α) → Prop
  | none => ∀ j ∈ pre, ¬ Feas dem visited load cap j
  | some (b, d) => b ∈ pre ∧ Feas dem visited load cap b ∧ d = D cur b ∧
      ∀ j ∈ pre, Feas dem visited load cap j →
        d ≤ D cur j ∧ (D cur j = d → b ≤ j)

lemma scan_foldl_good {α : Type} [LinearOrderedCommRing α] (D : ℕ → ℕ → α)
    (dem : List α) (visited : List Bool) (load cap : α) (cur : ℕ) :
    ∀ (l : List ℕ) (acc : Option (ℕ × α)) (pre : List ℕ),
    ScanGood D dem visited load cap cur pre acc →
    (∀ a ∈ pre, ∀ x ∈ l, a < x) →
    l.Pairwise (· < ·) →
    ScanGood D dem visited load cap cur (pre ++ l)
      (l.foldl (scanStep D dem visited load cap cur) acc) := by
  intro l
  induction l with
  | nil => intro acc pre hacc _ _; simpa using hacc
  | cons x xs ih =>
    intro acc pre hacc hlt hsort
    have hsort2 : xs.Pairwise (· < ·) := (List.pairwise_cons.mp hsort).2
    have hxlt : ∀ y ∈ xs, x < y := (List.pairwise_cons.mp hsort).1
    have hstep : ScanGood D dem visited load cap cur (pre ++ [x])
        (scanStep D dem visited load cap cur acc x) := by
      by_cases hfx : Feas dem visited load cap x
      · have hv := hfx.1
        have hc := hfx.2
        match acc with
        | none =>
            simp only [scanStep, hv, if_true, hc, if_pos]
            refine ⟨by simp, hfx, rfl, ?_⟩
            intro j hj hfj
            rcases List.mem_append.mp hj with hj | hj
            · exact absurd hfj (hacc j hj)
            · have : j = x := by simpa using hj
              subst this
              exact ⟨le_rfl, fun _ => le_rfl⟩
        | some (b, bd) =>
            obtain ⟨hbmem, hbfeas, hbd, hbmin⟩ := hacc
            simp only [scanStep, hv, if_true, hc, if_pos]
            by_cases hlt2 : D cur x < bd
            · simp only [hlt2, if_pos]
              refine ⟨by simp, hfx, rfl, ?_⟩
              intro j hj hfj
              rcases List.mem_append.mp hj with hj | hj
              · have h1 := (hbmin j hj hfj).1
                constructor
                · exact le_of_lt (lt_of_lt_of_le hlt2 h1)
                · intro heq
                  exact absurd (heq ▸ lt_of_lt_of_le hlt2 h1) (lt_irrefl _)
              · have : j = x := by simpa using hj
                subst this
                exact ⟨le_rfl, fun _ => le_rfl⟩
            · simp only [hlt2, if_neg, if_false]
              refine ⟨List.mem_append.mpr (Or.inl hbmem), hbfeas, hbd, ?_⟩
              intro j hj hfj
              rcases List.mem_append.mp hj with hj | hj
              · exact hbmin j hj hfj
              · have : j = x := by simpa using hj
                subst this
                refine ⟨not_lt.mp hlt2, fun _ => ?_⟩
                exact le_of_lt (hlt b hbmem _ (by simp))
      · have hstep_eq : scanStep D dem visited load cap cur acc x = acc := by
          rcases Decidable.em (visited.getD x true = false) with hv | hv
          · have hc : ¬ load + dem.getD x 0 ≤ cap := fun hc => hfx ⟨hv, hc⟩
            simp only [scanStep, if_pos hv, if_neg hc]
          · simp only [scanStep, if_neg hv]
        rw [hstep_eq]
        match acc with
        | none =>
            intro j hj
            rcases List.mem_append.mp hj with hj | hj
            · exact hacc j hj
            · have : j = x := by simpa using hj
              subst this; exact hfx
        | some (b, bd) =>
            obtain ⟨hbmem, hbfeas, hbd, hbmin⟩ := hacc
            refine ⟨List.mem_append.mpr (Or.inl hbmem), hbfeas, hbd, ?_⟩
            intro j hj hfj
            rcases List.mem_append.mp hj with hj | hj
            · exact hbmin j hj hfj
            · have : j = x := by simpa using hj
              subst this; exact absurd hfj hfx
    have hlt2 : ∀ a ∈ pre ++ [x], ∀ y ∈ xs, a < y := by
      intro a ha y hy
      rcases List.mem_append.mp ha with ha | ha
      · exact hlt a ha y (by simp [hy])
      · have : a = x := by simpa using ha
        subst this; exact hxlt y hy
    have := ih (scanStep D dem visited load cap cur acc x) (pre ++ [x]) hstep hlt2 hsort2
    simpa [List.append_assoc] using this

lemma range'_one_pairwise : ∀ (k s : ℕ), (List.range' s k).Pairwise (· < ·) := by
  intro k
  induction k with
  | zero => intro s; simp
  | succ k ih =>
    intro s
    rw [List.range'_succ]
    refine List.pairwise_cons.mpr ⟨?_, ih (s + 1)⟩
    intro y hy
    have := (List.mem_range'_1.mp hy).1
    omega

lemma mem_range'_one {n j : ℕ} : j ∈ List.range' 1 (n - 1) ↔ 1 ≤ j ∧ j < n := by
  rw [List.mem_range'_1]
  omega

/-- A successful scan returns a feasible non-depot index `b < n` at its own
matrix distance, minimal among all feasible candidates in `[1, n)`, and the
lowest such index among those at the minimal distance. -/
lemma selectBest_eq_some {α : Type} [LinearOrderedCommRing α] {D : ℕ → ℕ → α}
    {dem : List α} {visited : List Bool} {load cap : α} {cur n b : ℕ} {d : α}
    (h : selectBest D dem visited load cap cur n = some (b, d)) :
    (1 ≤ b ∧ b < n) ∧ Feas dem visited load cap b ∧ d = D cur b ∧
    ∀ j, 1 ≤ j → j < n → Feas dem visited load cap j →
      d ≤ D cur j ∧ (D cur j = d → b ≤ j) := by
  have hgood := scan_foldl_good D dem visited load cap cur
    (List.range' 1 (n - 1)) none [] (by intro j hj; simp at hj)
    (by intro a ha; simp at ha) (range'_one_pairwise (n - 1) 1)
  rw [show ([] : List ℕ) ++ List.range' 1 (n - 1) = List.range' 1 (n - 1) by simp,
    show (List.range' 1 (n - 1)).foldl (scanStep D dem visited load cap cur) none
      = selectBest D dem visited load cap cur n from rfl, h] at hgood
  obtain ⟨hmem, hfeas, hd, hmin⟩ := hgood
  refine ⟨mem_range'_one.mp hmem, hfeas, hd, ?_⟩
  intro j h1 h2 hfj
  exact hmin j (mem_range'_one.mpr ⟨h1, h2⟩) hfj

/-- A failed scan means no feasible candidate exists in `[1, n)`. -/
lemma selectBest_eq_none {α : Type} [LinearOrderedCommRing α] {D : ℕ → ℕ → α}
    {dem : List α} {visited : List Bool} {load cap : α} {cur n : ℕ}
    (h : selectBest D dem visited load cap cur n = none) :
    ∀ j, 1 ≤ j → j < n → ¬ Feas dem visited load cap j := by
  have hgood := scan_foldl_good D dem visited load cap cur
    (List.range' 1 (n - 1)) none [] (by intro j hj; simp at hj)
    (by intro a ha; simp at ha) (range'_one_pairwise (n - 1) 1)
  rw [show ([] : List ℕ) ++ List.range' 1 (n - 1) = List.range' 1 (n - 1) by simp,
    show (List.range' 1 (n - 1)).foldl (scanStep D dem visited load cap cur) none
      = selectBest D dem visited load cap cur n from rfl, h] at hgood
  intro j h1 h2
  exact hgood j (mem_range'_one.mpr ⟨h1, h2⟩)

/-
List bookkeeping helpers.
-/

lemma self_eq_decomp {β : Type} (l : List β) (i : ℕ) (h : i < l.length) :
    l = l.take i ++ l[i] :: l.drop (i + 1) := by
  conv_lhs => rw [← List.take_append_drop i l]
  rw [List.drop_eq_getElem_cons h]

lemma getD_true_eq_false {l : List Bool} {i : ℕ} (h : l.getD i true = false) :
    i < l.length ∧ l[i]? = some false := by
  rw [List.getD_eq_getElem?_getD] at h
  cases hx : l[i]? with
  | none => rw [hx] at h; simp at h
  | some b =>
    rw [hx] at h
    simp only [Option.getD_some] at h
    subst h
    refine ⟨?_, rfl⟩
    by_contra hge
    rw [List.getElem?_eq_none (by omega)] at hx
    cases hx

lemma count_false_set_true {l : List Bool} {i : ℕ} (h1 : i < l.length)
    (h2 : l[i]? = some false) : (l.set i true).count false + 1 = l.count false := by
  have hval : l[i] = false := by
    rw [List.getElem?_eq_getElem h1] at h2
    exact Option.some.inj h2
  rw [List.set_eq_take_cons_drop true h1]
  conv_rhs => rw [self_eq_decomp l i h1]
  simp [List.count_append, List.count_cons, hval]
  omega

lemma count_flatten_set {β : Type} (vs : List β) (c : ℕ) (x : β) (f : β → List ℕ)
    (j : ℕ) (h : c < vs.length) :
    (((vs.set c x).map f).flatten.count j) + ((f vs[c]).count j)
      = ((vs.map f).flatten.count j) + ((f x).count j) := by
  rw [List.set_eq_take_cons_drop x h]
  conv_rhs => rw [self_eq_decomp vs c h]
  simp only [List.map_append, List.map_cons, List.flatten_append, List.flatten_cons,
    List.count_append]
  omega

lemma count_false_pos {l : List Bool} (h : ¬ l.all id = true) : 1 ≤ l.count false := by
  rw [List.all_eq_true] at h
  push_neg at h
  obtain ⟨x, hx, hxf⟩ := h
  have hxfalse : x = false := by cases x <;> simp_all
  subst hxfalse
  exact Nat.one_le_iff_ne_zero.mpr fun h0 => (List.count_eq_zero.mp h0) hx

lemma initVisited_length (n : ℕ) : (initVisited n).length = n := by
  simp [initVisited]

lemma initVisited_count {n : ℕ} (h : 1 ≤ n) : (initVisited n).count false = n - 1 := by
  obtain ⟨m, rfl⟩ : ∃ m, n = m + 1 := ⟨n - 1, by omega⟩
  simp [initVisited, List.replicate_succ, List.count_replicate]

lemma initVehicles_length {α : Type} [LinearOrderedCommRing α] (numV : ℕ) :
    (initVehicles (α := α) numV).length = numV := by
  simp [initVehicles]

/-- When the demand list covers the location indices, every demand the scan
reads is in range: the demand-read `IndexError` condition is false
regardless of the visited state. -/
lemma demandOutOfRange_false {α : Type} {dem : List α} (visited : List Bool)
    {n : ℕ} (h : n ≤ dem.length) : demandOutOfRange dem visited n = false := by
  rw [demandOutOfRange, List.any_eq_false]
  intro i hi
  have hmem := mem_range'_one.mp hi
  simp only [Bool.and_eq_true, Bool.not_eq_true', decide_eq_true_eq, not_and]
  intro _
  omega

/-
Termination of the construction pass.
-/

/-- Fuel `visited.count false + (numV - cursor)` always suffices: each loop
iteration either marks a previously unvisited location visited or advances
the vehicle cursor. -/
lemma vrpGo_terminates {α : Type} [LinearOrderedCommRing α] (D : ℕ → ℕ → α)
    (dem : List α) (cap : α) (n numV : ℕ) (mc : (ℕ → ℕ → α) → Veh α → Veh α) :
    ∀ fuel (visited : List Bool) (vs : List (Veh α)) (cursor : ℕ),
      visited.count false + (numV - cursor) ≤ fuel →
      (vrpGo D dem cap n numV mc fuel vs visited cursor).isSome = true := by
  intro fuel
  induction fuel with
  | zero =>
    intro visited vs cursor hm
    rw [vrpGo]
    by_cases hall : visited.all id
    · simp [hall]
    · exact absurd (count_false_pos hall) (by omega)
  | succ fuel ih =>
    intro visited vs cursor hm
    rw [vrpGo]
    by_cases hall : visited.all id
    · simp [hall]
    · rw [if_neg hall]
      cases hv : vs[cursor]? with
      | none => simp
      | some v =>
        simp only
        by_cases hdor : demandOutOfRange dem visited n = true
        · rw [if_pos hdor]
          rfl
        · rw [if_neg hdor]
          cases hsel : selectBest D dem visited v.load cap (v.stops.getLastD 0) n with
          | some bd =>
            obtain ⟨b, d⟩ := bd
            apply ih
            have hfeas := (selectBest_eq_some hsel).2.1
            obtain ⟨hblt, hbval⟩ := getD_true_eq_false hfeas.1
            have := count_false_set_true hblt hbval
            omega
          | none =>
            by_cases hc : numV ≤ cursor + 1
            · simp [hc]
            · rw [if_neg hc]
              apply ih
              omega

/-
Generic invariant-preservation induction over the construction loop.
-/

lemma vrpGo_inv {α : Type} [LinearOrderedCommRing α] (D : ℕ → ℕ → α) (dem : List α)
    (cap : α) (n numV : ℕ) (mc : (ℕ → ℕ → α) → Veh α → Veh α)
    (P : List (Veh α) → List Bool → ℕ → Prop)
    (hassign : ∀ vs visited cursor v b d, P vs visited cursor →
      visited.all id = false → vs[cursor]? = some v →
      selectBest D dem visited v.load cap (v.stops.getLastD 0) n = some (b, d) →
      P (vs.set cursor ⟨v.stops ++ [b], v.load + dem.getD b 0, v.distance + d⟩)
        (visited.set b true) cursor)
    (hclose : ∀ vs visited cursor v, P vs visited cursor →
      visited.all id = false → vs[cursor]? = some v →
      selectBest D dem visited v.load cap (v.stops.getLastD 0) n = none →
      P (vs.set cursor (mc D v)) visited (cursor + 1)) :
    ∀ fuel vs visited cursor fvs fvisited, P vs visited cursor →
      vrpGo D dem cap n numV mc fuel vs visited cursor = some (.ok fvs fvisited) →
      ∃ c, P fvs fvisited c := by
  intro fuel
  induction fuel with
  | zero =>
    intro vs visited cursor fvs fvisited hP hrun
    rw [vrpGo] at hrun
    by_cases hall : visited.all id
    · rw [if_pos hall] at hrun
      obtain ⟨h1, h2⟩ : vs = fvs ∧ visited = fvisited := by
        cases hrun; exact ⟨rfl, rfl⟩
      subst h1; subst h2
      exact ⟨cursor, hP⟩
    · rw [if_neg hall] at hrun; cases hrun
  | succ fuel ih =>
    intro vs visited cursor fvs fvisited hP hrun
    rw [vrpGo] at hrun
    by_cases hall : visited.all id
    · rw [if_pos hall] at hrun
      obtain ⟨h1, h2⟩ : vs = fvs ∧ visited = fvisited := by
        cases hrun; exact ⟨rfl, rfl⟩
      subst h1; subst h2
      exact ⟨cursor, hP⟩
    · rw [if_neg hall] at hrun
      have hallf : visited.all id = false := by simpa using hall
      cases hv : vs[cursor]? with
      | none => rw [hv] at hrun; cases hrun
      | some v =>
        rw [hv] at hrun
        simp only at hrun
        by_cases hdor : demandOutOfRange dem visited n = true
        · rw [if_pos hdor] at hrun
          exact VrpOut.noConfusion (Option.some.inj hrun)
        · rw [if_neg hdor] at hrun
          cases hsel : selectBest D dem visited v.load cap (v.stops.getLastD 0) n with
          | some bd =>
            obtain ⟨b, d⟩ := bd
            rw [hsel] at hrun
            exact ih _ _ _ _ _ (hassign vs visited cursor v b d hP hallf hv hsel) hrun
          | none =>
            rw [hsel] at hrun
            by_cases hc : numV ≤ cursor + 1
            · rw [if_pos hc] at hrun
              obtain ⟨h1, h2⟩ : vs.set cursor (mc D v) = fvs ∧ visited = fvisited := by
                cases hrun; exact ⟨rfl, rfl⟩
              subst h1; subst h2
              exact ⟨cursor + 1, hclose vs visited cursor v hP hallf hv hsel⟩
            · rw [if_neg hc] at hrun
              exact ih _ _ _ _ _ (hclose vs visited cursor v hP hallf hv hsel) hrun

/-
The loop invariant.
-/

lemma head?_some_decomp {l : List ℕ} (h : l.head? = some 0) : l = 0 :: l.tail := by
  cases l with
  | nil => cases h
  | cons a t => simp only [List.head?_cons, Option.some.injEq] at h; simp [h]

lemma head?_append_ne {l m : List ℕ} (h : l ≠ []) : (l ++ m).head? = l.head? := by
  cases l with
  | nil => exact absurd rfl h
  | cons a t => rfl

lemma getElem?_some_lt {β : Type} {l : List β} {i : ℕ} {x : β}
    (h : l[i]? = some x) : i < l.length := by
  by_contra hge
  rw [List.getElem?_eq_none (by omega)] at h
  cases h

/-- Per-vehicle facts maintained throughout construction: the route is a
nonempty list starting at the depot, all its stops are in range, the load
is exactly the sum of the demands of the non-depot stops and within
capacity (or still zero), the depot never occurs strictly inside the route,
and a route that never left the depot has zero load and distance. -/
structure VehWF {α : Type} [LinearOrderedCommRing α] (dem : List α) (cap : α)
    (n : ℕ) (v : Veh α) : Prop where
  ne : v.stops ≠ []
  head0 : v.stops.head? = some 0
  bound : ∀ x ∈ v.stops, x < n
  load_eq : v.load = ((v.stops.filter fun i => i != 0).map fun i => dem.getD i 0).sum
  load_le : v.load ≤ cap ∨ v.load = 0
  inner : 0 ∉ v.stops.tail.dropLast
  untouched : v.stops = [0] → v.load = 0 ∧ v.distance = 0

/-- The global invariant of the construction loop: list shapes, per-vehicle
well-formedness, vehicles at or past the cursor still open (no depot in the
tail), vehicles strictly past the cursor untouched, vehicles before the
cursor closed, and every non-depot index appearing in the routes exactly as
dictated by its visited flag. -/
structure LoopInv {α : Type} [LinearOrderedCommRing α] (dem : List α) (cap : α)
    (n numV : ℕ) (vs : List (Veh α)) (visited : List Bool) (cursor : ℕ) : Prop where
  hn : 1 ≤ n
  vlen : vs.length = numV
  vislen : visited.length = n
  wf : ∀ (i : ℕ) (v : Veh α), vs[i]? = some v → VehWF dem cap n v
  openTail : ∀ (i : ℕ) (v : Veh α), cursor ≤ i → vs[i]? = some v → 0 ∉ v.stops.tail
  fresh : ∀ (i : ℕ) (v : Veh α), cursor < i → vs[i]? = some v → v = ⟨[0], 0, 0⟩
  closedLast : ∀ (i : ℕ) (v : Veh α), i < cursor → vs[i]? = some v → v.stops.getLast? = some 0
  countEq : ∀ j, 0 < j →
    ((vs.map Veh.stops).flatten.count j) = (if visited.getD j false = true then 1 else 0)

/-- What the two mid-loop closing functions have in common, as used by the
invariant-preservation argument. -/
structure MidCloseOK {α : Type} [LinearOrderedCommRing α]
    (mc : (ℕ → ℕ → α) → Veh α → Veh α) : Prop where
  stops_eq : ∀ D (v : Veh α), v.stops ≠ [] →
    ((mc D v).stops = v.stops ∧ v.stops.getLast? = some 0) ∨
    (mc D v).stops = v.stops ++ [0]
  load_eq : ∀ D (v : Veh α), (mc D v).load = v.load
  last0 : ∀ D (v : Veh α), v.stops ≠ [] → (mc D v).stops.getLast? = some 0
  triv : ∀ D (v : Veh α), v.stops ≠ [] → (mc D v).stops = [0] → mc D v = v

lemma closeIfOpen_stops_cases {α : Type} [LinearOrderedCommRing α] (D : ℕ → ℕ → α)
    (v : Veh α) :
    (v.stops.getLastD 0 ≠ 0 ∧ closeIfOpen D v =
      { v with stops := v.stops ++ [0],
               distance := v.distance + D (v.stops.getLastD 0) 0 }) ∨
    (v.stops.getLastD 0 = 0 ∧ closeIfOpen D v = v) := by
  by_cases h : v.stops.getLastD 0 ≠ 0
  · left; exact ⟨h, by unfold closeIfOpen; rw [if_pos h]⟩
  · right; exact ⟨not_not.mp h, by unfold closeIfOpen; rw [if_neg h]⟩

lemma getLastD_zero_of_ne {l : List ℕ} (hne : l ≠ []) (h : l.getLastD 0 = 0) :
    l.getLast? = some 0 := by
  rw [List.getLastD_eq_getLast? 0 l] at h
  cases hlast : l.getLast? with
  | none => exact absurd (List.getLast?_eq_none_iff.mp hlast) hne
  | some a =>
    rw [hlast] at h
    simp only [Option.getD_some] at h
    rw [h]

lemma closeIfOpen_ok {α : Type} [LinearOrderedCommRing α] :
    MidCloseOK (α := α) closeIfOpen := by
  constructor
  · intro D v hne
    rcases closeIfOpen_stops_cases D v with ⟨h, heq⟩ | ⟨h, heq⟩
    · right; rw [heq]
    · left; exact ⟨by rw [heq], getLastD_zero_of_ne hne h⟩
  · intro D v
    rcases closeIfOpen_stops_cases D v with ⟨h, heq⟩ | ⟨h, heq⟩ <;> rw [heq]
  · intro D v hne
    rcases closeIfOpen_stops_cases D v with ⟨h, heq⟩ | ⟨h, heq⟩
    · rw [heq]; exact List.getLast?_concat _
    · rw [heq]; exact getLastD_zero_of_ne hne h
  · intro D v hne htr
    rcases closeIfOpen_stops_cases D v with ⟨h, heq⟩ | ⟨h, heq⟩
    · exfalso
      rw [heq] at htr
      have htr2 : v.stops ++ [0] = [0] := htr
      have hlen : v.stops.length + 1 = 1 := by simpa using congrArg List.length htr2
      exact hne (List.length_eq_zero.mp (by omega))
    · exact heq

lemma closeAlways_ok {α : Type} [LinearOrderedCommRing α] :
    MidCloseOK (α := α) closeAlways := by
  constructor
  · intro D v _; right; rfl
  · intro D v; rfl
  · intro D v _; exact List.getLast?_concat _
  · intro D v hne htr
    exfalso
    have htr2 : v.stops ++ [0] = [0] := htr
    have hlen : v.stops.length + 1 = 1 := by simpa using congrArg List.length htr2
    exact hne (List.length_eq_zero.mp (by omega))

lemma initVehicles_elem {α : Type} [LinearOrderedCommRing α] {numV i : ℕ} {w : Veh α}
    (h : (initVehicles (α := α) numV)[i]? = some w) : w = ⟨[0], 0, 0⟩ := by
  unfold initVehicles at h
  rw [List.getElem?_map] at h
  cases hx : (List.range numV)[i]? with
  | none => rw [hx] at h; cases h
  | some a => rw [hx] at h; exact (Option.some.inj h).symm

lemma initVisited_getD_ne {n j : ℕ} (hj : j ≠ 0) :
    (initVisited n).getD j false = false := by
  unfold initVisited
  rw [List.getD_eq_getElem?_getD, List.getElem?_set_ne (by omega)]
  cases hx : (List.replicate n false)[j]? with
  | none => simp [hx]
  | some b =>
    have hb : b = false := by
      have := List.getElem?_replicate (a := false) (n := n) (m := j)
      rw [hx] at this
      by_cases hjn : j < n
      · rw [if_pos hjn] at this; exact Option.some.inj this
      · rw [if_neg hjn] at this; cases this
    simp [hx, hb]

/-- The invariant holds at loop entry. -/
lemma loopInv_init {α : Type} [LinearOrderedCommRing α] (dem : List α) (cap : α)
    (n numV : ℕ) (hn : 1 ≤ n) :
    LoopInv dem cap n numV (initVehicles numV) (initVisited n) 0 := by
  refine ⟨hn, initVehicles_length numV, initVisited_length n, ?_, ?_, ?_, ?_, ?_⟩
  · intro i w hw
    have hweq : w = ⟨[0], 0, 0⟩ := initVehicles_elem hw
    subst hweq
    exact ⟨by simp, rfl, by intro x hx; simp at hx; omega, by simp, Or.inr rfl,
      by simp, fun _ => ⟨rfl, rfl⟩⟩
  · intro i w _ hw
    have hweq : w = ⟨[0], 0, 0⟩ := initVehicles_elem hw
    subst hweq; simp
  · intro i w _ hw
    exact initVehicles_elem hw
  · intro i w hi _
    omega
  · intro j hj
    rw [initVisited_getD_ne (by omega)]
    simp only [Bool.false_eq_true, if_false]
    have h1 : ((initVehicles (α := α) numV).map Veh.stops)
        = (List.range numV).map (fun _ => [0]) := by
      simp [initVehicles]
    rw [h1, List.count_flatten]
    have h2 : ((List.range numV).map (fun _ => ([0] : List ℕ))).map (List.count j)
        = (List.range numV).map (fun _ => 0) := by
      simp only [List.map_map]
      refine List.map_congr_left ?_
      intro a _
      simp [List.count_cons, Function.comp]
      omega
    rw [h2]
    simp

/-- Invariant preservation by the assignment branch: the selected location
is appended to the cursor vehicle and marked visited. -/
lemma loopInv_assign {α : Type} [LinearOrderedCommRing α] {D : ℕ → ℕ → α}
    {dem : List α} {cap : α} {n numV : ℕ} {vs : List (Veh α)}
    {visited : List Bool} {cursor : ℕ} {v : Veh α} {b : ℕ} {d : α}
    (hP : LoopInv dem cap n numV vs visited cursor)
    (hv : vs[cursor]? = some v)
    (hsel : selectBest D dem visited v.load cap (v.stops.getLastD 0) n = some (b, d)) :
    LoopInv dem cap n numV
      (vs.set cursor ⟨v.stops ++ [b], v.load + dem.getD b 0, v.distance + d⟩)
      (visited.set b true) cursor := by
  obtain ⟨⟨hb1, hb2⟩, hfeas, hd, hmin⟩ := selectBest_eq_some hsel
  have hbne : b ≠ 0 := by omega
  have hcur_lt : cursor < vs.length := getElem?_some_lt hv
  have hvval : vs[cursor] = v := by
    rw [List.getElem?_eq_getElem hcur_lt] at hv
    exact Option.some.inj hv
  obtain ⟨hblt, hbval⟩ := getD_true_eq_false hfeas.1
  have hwf := hP.wf cursor v hv
  have hdecomp : v.stops = 0 :: v.stops.tail := head?_some_decomp hwf.head0
  have hopen : 0 ∉ v.stops.tail := hP.openTail cursor v le_rfl hv
  refine ⟨hP.hn, by simpa using hP.vlen, by simpa using hP.vislen, ?_, ?_, ?_, ?_, ?_⟩
  · -- wf
    intro i w hw
    by_cases hi : i = cursor
    · subst hi
      rw [List.getElem?_set_eq hcur_lt] at hw
      have hweq := (Option.some.inj hw).symm
      subst hweq
      refine ⟨by simp [hwf.ne], ?_, ?_, ?_, ?_, ?_, ?_⟩
      · show (v.stops ++ [b]).head? = some 0
        rw [head?_append_ne hwf.ne]
        exact hwf.head0
      · intro x hx
        rcases List.mem_append.mp hx with hx | hx
        · exact hwf.bound x hx
        · have : x = b := by simpa using hx
          omega
      · show v.load + dem.getD b 0 = _
        rw [hwf.load_eq]
        have hfil : (v.stops ++ [b]).filter (fun i => i != 0)
            = v.stops.filter (fun i => i != 0) ++ [b] := by
          simp [List.filter_append, hbne]
        rw [hfil, List.map_append, List.sum_append]
        simp
      · exact Or.inl hfeas.2
      · show 0 ∉ (v.stops ++ [b]).tail.dropLast
        rw [hdecomp, List.cons_append, List.tail_cons, List.dropLast_concat]
        exact hopen
      · intro habs
        exfalso
        rw [hdecomp, List.cons_append] at habs
        simp at habs
    · rw [List.getElem?_set_ne (fun h => hi h.symm)] at hw
      exact hP.wf i w hw
  · -- openTail
    intro i w hge hw
    by_cases hi : i = cursor
    · subst hi
      rw [List.getElem?_set_eq hcur_lt] at hw
      have hweq := (Option.some.inj hw).symm
      subst hweq
      show 0 ∉ (v.stops ++ [b]).tail
      rw [hdecomp, List.cons_append, List.tail_cons]
      intro hmem
      rcases List.mem_append.mp hmem with hmem | hmem
      · exact hopen hmem
      · have : (0 : ℕ) = b := by simpa using hmem
        omega
    · rw [List.getElem?_set_ne (fun h => hi h.symm)] at hw
      exact hP.openTail i w hge hw
  · -- fresh
    intro i w hgt hw
    have hi : i ≠ cursor := by omega
    rw [List.getElem?_set_ne (fun h => hi h.symm)] at hw
    exact hP.fresh i w hgt hw
  · -- closedLast
    intro i w hlt2 hw
    have hi : i ≠ cursor := by omega
    rw [List.getElem?_set_ne (fun h => hi h.symm)] at hw
    exact hP.closedLast i w hlt2 hw
  · -- countEq
    intro j hj
    have hkey := count_flatten_set vs cursor
      ⟨v.stops ++ [b], v.load + dem.getD b 0, v.distance + d⟩ Veh.stops j hcur_lt
    rw [hvval] at hkey
    have hnewcount : (List.count j (v.stops ++ [b]))
        = v.stops.count j + (if b = j then 1 else 0) := by
      rw [List.count_append]
      congr 1
      by_cases hbj : b = j
      · subst hbj; simp
      · simp [List.count_cons, hbj]
    by_cases hbj : j = b
    · subst hbj
      have hvisold : visited.getD j false = false := by
        rw [List.getD_eq_getElem?_getD, hbval]
        rfl
      have hold := hP.countEq j hj
      rw [hvisold] at hold
      simp only [Bool.false_eq_true, if_false] at hold
      have hvcount : v.stops.count j = 0 := by
        have hmem : v.stops ∈ vs.map Veh.stops := by
          refine List.mem_map_of_mem Veh.stops ?_
          rw [← hvval]
          exact List.getElem_mem hcur_lt
        have hle : v.stops.count j ≤ (vs.map Veh.stops).flatten.count j := by
          rw [List.count_flatten]
          exact List.single_le_sum (fun x _ => Nat.zero_le x) _
            (List.mem_map_of_mem (List.count j) hmem)
        omega
      have hvisnew : (visited.set j true).getD j false = true := by
        rw [List.getD_eq_getElem?_getD, List.getElem?_set_eq hblt]
        rfl
      rw [hvisnew, if_pos rfl]
      rw [if_pos rfl] at hnewcount
      have hkey2 : ((vs.set cursor
            ⟨v.stops ++ [j], v.load + dem.getD j 0, v.distance + d⟩).map
            Veh.stops).flatten.count j + v.stops.count j
          = (vs.map Veh.stops).flatten.count j + (v.stops ++ [j]).count j := hkey
      omega
    · have hvisnew : (visited.set b true).getD j false = visited.getD j false := by
        rw [List.getD_eq_getElem?_getD, List.getElem?_set_ne (by omega),
          ← List.getD_eq_getElem?_getD]
      rw [hvisnew]
      have hold := hP.countEq j hj
      rw [if_neg (by omega : ¬ b = j)] at hnewcount
      have hkey2 : ((vs.set cursor
            ⟨v.stops ++ [b], v.load + dem.getD b 0, v.distance + d⟩).map
            Veh.stops).flatten.count j + v.stops.count j
          = (vs.map Veh.stops).flatten.count j + (v.stops ++ [b]).count j := hkey
      rw [← hold]
      omega

/-- Invariant preservation by the closing branch: the cursor vehicle is
closed with `mc` and the cursor advances. -/
lemma loopInv_close {α : Type} [LinearOrderedCommRing α] {D : ℕ → ℕ → α}
    {dem : List α} {cap : α} {n numV : ℕ} {vs : List (Veh α)}
    {visited : List Bool} {cursor : ℕ} {v : Veh α}
    {mc : (ℕ → ℕ → α) → Veh α → Veh α} (hmc : MidCloseOK mc)
    (hP : LoopInv dem cap n numV vs visited cursor)
    (hv : vs[cursor]? = some v) :
    LoopInv dem cap n numV (vs.set cursor (mc D v)) visited (cursor + 1) := by
  have hcur_lt : cursor < vs.length := getElem?_some_lt hv
  have hvval : vs[cursor] = v := by
    rw [List.getElem?_eq_getElem hcur_lt] at hv
    exact Option.some.inj hv
  have hwf := hP.wf cursor v hv
  have hopen : 0 ∉ v.stops.tail := hP.openTail cursor v le_rfl hv
  have hdecomp : v.stops = 0 :: v.stops.tail := head?_some_decomp hwf.head0
  have hstops : (mc D v).stops = v.stops ∨ (mc D v).stops = v.stops ++ [0] := by
    rcases hmc.stops_eq D v hwf.ne with ⟨h, _⟩ | h
    · exact Or.inl h
    · exact Or.inr h
  have hload : (mc D v).load = v.load := hmc.load_eq D v
  refine ⟨hP.hn, by simpa using hP.vlen, hP.vislen, ?_, ?_, ?_, ?_, ?_⟩
  · -- wf
    intro i w hw
    by_cases hi : i = cursor
    · subst hi
      rw [List.getElem?_set_eq hcur_lt] at hw
      have hweq := (Option.some.inj hw).symm
      subst hweq
      refine ⟨?_, ?_, ?_, ?_, ?_, ?_, ?_⟩
      · rcases hstops with h | h <;> rw [h] <;> simp [hwf.ne]
      · rcases hstops with h | h <;> rw [h]
        · exact hwf.head0
        · rw [head?_append_ne hwf.ne]; exact hwf.head0
      · intro x hx
        rcases hstops with h | h <;> rw [h] at hx
        · exact hwf.bound x hx
        · rcases List.mem_append.mp hx with hx | hx
          · exact hwf.bound x hx
          · have : x = 0 := by simpa using hx
            have := hP.hn
            omega
      · rw [hload, hwf.load_eq]
        rcases hstops with h | h <;> rw [h]
        rw [List.filter_append]
        simp
      · rw [hload]
        exact hwf.load_le
      · rcases hstops with h | h <;> rw [h]
        · exact hwf.inner
        · show 0 ∉ (v.stops ++ [0]).tail.dropLast
          rw [hdecomp, List.cons_append, List.tail_cons, List.dropLast_concat]
          exact hopen
      · intro h0
        have hid := hmc.triv D v hwf.ne h0
        rw [hid] at h0 ⊢
        exact hwf.untouched h0
    · rw [List.getElem?_set_ne (fun h => hi h.symm)] at hw
      exact hP.wf i w hw
  · -- openTail
    intro i w hge hw
    have hi : i ≠ cursor := by omega
    rw [List.getElem?_set_ne (fun h => hi h.symm)] at hw
    exact hP.openTail i w (by omega) hw
  · -- fresh
    intro i w hgt hw
    have hi : i ≠ cursor := by omega
    rw [List.getElem?_set_ne (fun h => hi h.symm)] at hw
    exact hP.fresh i w (by omega) hw
  · -- closedLast
    intro i w hlt2 hw
    by_cases hi : i = cursor
    · subst hi
      rw [List.getElem?_set_eq hcur_lt] at hw
      have hweq := (Option.some.inj hw).symm
      subst hweq
      exact hmc.last0 D v hwf.ne
    · rw [List.getElem?_set_ne (fun h => hi h.symm)] at hw
      exact hP.closedLast i w (by omega) hw
  · -- countEq
    intro j hj
    have hkey := count_flatten_set vs cursor (mc D v) Veh.stops j hcur_lt
    rw [hvval] at hkey
    have hsame : (mc D v).stops.count j = v.stops.count j := by
      rcases hstops with h | h <;> rw [h]
      rw [List.count_append]
      have : List.count j [0] = 0 := by
        simp [List.count_cons]
        omega
      omega
    have hold := hP.countEq j hj
    have hkey2 : ((vs.set cursor (mc D v)).map Veh.stops).flatten.count j
          + v.stops.count j
        = (vs.map Veh.stops).flatten.count j + (mc D v).stops.count j := hkey
    have hgoal : ((vs.set cursor (mc D v)).map Veh.stops).flatten.count j
        = (vs.map Veh.stops).flatten.count j := by omega
    rw [hgoal, hold]

/-
Facts about fully closed routes, and elimination of the wrappers.
-/

/-- What holds of a vehicle after the final closing pass, relative to its
loop-final state `v`. -/
structure ClosedRouteFacts {α : Type} [LinearOrderedCommRing α] (v w : Veh α) : Prop where
  ne : w.stops ≠ []
  head0 : w.stops.head? = some 0
  inner : 0 ∉ w.stops.tail.dropLast
  lastIsDepot : 1 < w.stops.length → w.stops.getLast? = some 0
  load : w.load = v.load
  stops_or : w.stops = v.stops ∨ w.stops = v.stops ++ [0]

lemma closed_route_facts_of_cases {α : Type} [LinearOrderedCommRing α]
    {dem : List α} {cap : α} {n : ℕ} {v w : Veh α} (hwf : VehWF dem cap n v)
    (horc : 0 ∉ v.stops.tail ∨ v.stops.getLast? = some 0)
    (hload : w.load = v.load)
    (hcase : (w.stops = v.stops ∧ v.stops.getLast? = some 0) ∨
      (w.stops = v.stops ++ [0] ∧ 0 ∉ v.stops.tail)) :
    ClosedRouteFacts v w := by
  have hdecomp : v.stops = 0 :: v.stops.tail := head?_some_decomp hwf.head0
  rcases hcase with ⟨hs, hlast⟩ | ⟨hs, hopen⟩
  · refine ⟨by rw [hs]; exact hwf.ne, by rw [hs]; exact hwf.head0,
      by rw [hs]; exact hwf.inner, fun _ => by rw [hs]; exact hlast,
      hload, Or.inl hs⟩
  · refine ⟨by rw [hs]; simp, ?_, ?_, fun _ => by rw [hs]; exact List.getLast?_concat _,
      hload, Or.inr hs⟩
    · rw [hs, head?_append_ne hwf.ne]
      exact hwf.head0
    · rw [hs, hdecomp, List.cons_append, List.tail_cons, List.dropLast_concat]
      exact hopen

/-- The final closing pass of `simple_vrp` yields a well-closed route. -/
lemma closeIfOpen_final_facts {α : Type} [LinearOrderedCommRing α]
    {D : ℕ → ℕ → α} {dem : List α} {cap : α} {n : ℕ} {v : Veh α}
    (hwf : VehWF dem cap n v)
    (horc : 0 ∉ v.stops.tail ∨ v.stops.getLast? = some 0) :
    ClosedRouteFacts v (closeIfOpen D v) := by
  refine closed_route_facts_of_cases hwf horc ((closeIfOpen_ok (α := α)).load_eq D v) ?_
  rcases closeIfOpen_stops_cases D v with ⟨h, heq⟩ | ⟨h, heq⟩
  · right
    refine ⟨by rw [heq], ?_⟩
    rcases horc with hopen | hlast
    · exact hopen
    · exfalso
      rw [List.getLastD_eq_getLast? 0 v.stops, hlast] at h
      exact h rfl
  · left
    exact ⟨by rw [heq], getLastD_zero_of_ne hwf.ne h⟩

/-- The final closing pass of `greedy_route_optimization` yields a
well-closed route. -/
lemma closeFinalApp_final_facts {α : Type} [LinearOrderedCommRing α]
    {D : ℕ → ℕ → α} {dem : List α} {cap : α} {n : ℕ} {v : Veh α}
    (hwf : VehWF dem cap n v)
    (horc : 0 ∉ v.stops.tail ∨ v.stops.getLast? = some 0) :
    ClosedRouteFacts v (closeFinalApp D v) := by
  have hdecomp : v.stops = 0 :: v.stops.tail := head?_some_decomp hwf.head0
  by_cases hg : v.stops.getLastD 0 ≠ 0 ∧ 1 < v.stops.length
  · have heq : closeFinalApp D v = closeAlways D v := by
      unfold closeFinalApp; rw [if_pos hg]
    refine closed_route_facts_of_cases hwf horc (by rw [heq]; rfl) ?_
    right
    refine ⟨by rw [heq]; rfl, ?_⟩
    rcases horc with hopen | hlast
    · exact hopen
    · exfalso
      rw [List.getLastD_eq_getLast? 0 v.stops, hlast] at hg
      exact hg.1 rfl
  · have heq : closeFinalApp D v = v := by
      unfold closeFinalApp; rw [if_neg hg]
    refine closed_route_facts_of_cases hwf horc (by rw [heq]) ?_
    left
    refine ⟨by rw [heq], ?_⟩
    rcases Decidable.em (v.stops.getLastD 0 = 0) with h0 | h0
    · exact getLastD_zero_of_ne hwf.ne h0
    · have hlen : ¬ 1 < v.stops.length := fun hlt => hg ⟨h0, hlt⟩
      have : v.stops = [0] := by
        rw [hdecomp]
        rcases htl : v.stops.tail with _ | ⟨a, t⟩
        · rfl
        · exfalso
          rw [hdecomp, htl] at hlen
          simp at hlen
      rw [this]
      rfl

/-- Any successful run of the loop from the canonical start state lands in
a state satisfying the invariant. -/
lemma vrpGo_loopInv {α : Type} [LinearOrderedCommRing α] {D : ℕ → ℕ → α}
    {dem : List α} {cap : α} {n numV fuel : ℕ}
    {mc : (ℕ → ℕ → α) → Veh α → Veh α} {fvs : List (Veh α)} {fvisited : List Bool}
    (hmc : MidCloseOK mc) (hn : 1 ≤ n)
    (hrun : vrpGo D dem cap n numV mc fuel (initVehicles numV) (initVisited n) 0
      = some (.ok fvs fvisited)) :
    ∃ c, LoopInv dem cap n numV fvs fvisited c :=
  vrpGo_inv D dem cap n numV mc (LoopInv dem cap n numV)
    (fun _ _ _ _ _ _ hP _ hv hsel => loopInv_assign hP hv hsel)
    (fun _ _ _ _ hP _ hv hsel => loopInv_close hmc hP hv)
    fuel _ _ _ fvs fvisited (loopInv_init dem cap n numV hn) hrun

/-- With a non-empty fleet the loop never raises the cursor IndexError:
the cursor stays strictly below the fleet size. -/
lemma vrpGo_no_idxErr {α : Type} [LinearOrderedCommRing α] (D : ℕ → ℕ → α)
    (dem : List α) (cap : α) (n numV : ℕ) (mc : (ℕ → ℕ → α) → Veh α → Veh α) :
    ∀ fuel (vs : List (Veh α)) (visited : List Bool) (cursor : ℕ),
      cursor < numV → vs.length = numV →
      vrpGo D dem cap n numV mc fuel vs visited cursor ≠ some .idxErr := by
  intro fuel
  induction fuel with
  | zero =>
    intro vs visited cursor hc hlen
    rw [vrpGo]
    by_cases hall : visited.all id
    · simp [hall]
    · simp [hall]
  | succ fuel ih =>
    intro vs visited cursor hc hlen
    rw [vrpGo]
    by_cases hall : visited.all id
    · simp [hall]
    · rw [if_neg hall]
      cases hv : vs[cursor]? with
      | none =>
        exfalso
        rw [List.getElem?_eq_none_iff] at hv
        omega
      | some v =>
        simp only
        by_cases hdor : demandOutOfRange dem visited n = true
        · rw [if_pos hdor]
          intro hcon
          exact VrpOut.noConfusion (Option.some.inj hcon)
        · rw [if_neg hdor]
          cases hsel : selectBest D dem visited v.load cap (v.stops.getLastD 0) n with
          | some bd =>
            obtain ⟨b, d⟩ := bd
            exact ih _ _ _ hc (by simpa using hlen)
          | none =>
            by_cases hcur : numV ≤ cursor + 1
            · simp [hcur]
            · rw [if_neg hcur]
              exact ih _ _ _ (by omega) (by simpa using hlen)

/-- When the demand list covers the location indices (true after
`simple_vrp`'s validation, and assumed of well-formed `app.py` inputs) the
demand-read IndexError never occurs. -/
lemma vrpGo_no_demErr {α : Type} [LinearOrderedCommRing α] (D : ℕ → ℕ → α)
    (dem : List α) (cap : α) (n numV : ℕ) (mc : (ℕ → ℕ → α) → Veh α → Veh α)
    (hdem : n ≤ dem.length) :
    ∀ fuel (vs : List (Veh α)) (visited : List Bool) (cursor : ℕ),
      vrpGo D dem cap n numV mc fuel vs visited cursor ≠ some .demErr := by
  intro fuel
  induction fuel with
  | zero =>
    intro vs visited cursor
    rw [vrpGo]
    by_cases hall : visited.all id
    · rw [if_pos hall]
      intro hcon
      exact VrpOut.noConfusion (Option.some.inj hcon)
    · rw [if_neg hall]
      intro hcon
      exact Option.noConfusion hcon
  | succ fuel ih =>
    intro vs visited cursor
    rw [vrpGo]
    by_cases hall : visited.all id
    · rw [if_pos hall]
      intro hcon
      exact VrpOut.noConfusion (Option.some.inj hcon)
    · rw [if_neg hall]
      cases hv : vs[cursor]? with
      | none =>
        intro hcon
        exact VrpOut.noConfusion (Option.some.inj hcon)
      | some v =>
        simp only
        rw [if_neg (by rw [demandOutOfRange_false visited hdem]; simp)]
        cases hsel : selectBest D dem visited v.load cap (v.stops.getLastD 0) n with
        | some bd =>
          obtain ⟨b, d⟩ := bd
          exact ih _ _ _
        | none =>
          by_cases hcur : numV ≤ cursor + 1
          · rw [if_pos hcur]
            intro hcon
            exact VrpOut.noConfusion (Option.some.inj hcon)
          · rw [if_neg hcur]
            exact ih _ _ _

/-- When everything is already visited the loop exits immediately with the
state unchanged, for any fuel. -/
lemma vrpGo_all_visited {α : Type} [LinearOrderedCommRing α] (D : ℕ → ℕ → α)
    (dem : List α) (cap : α) (n numV : ℕ) (mc : (ℕ → ℕ → α) → Veh α → Veh α)
    (fuel : ℕ) (vs : List (Veh α)) (visited : List Bool) (cursor : ℕ)
    (hall : visited.all id = true) :
    vrpGo D dem cap n numV mc fuel vs visited cursor = some (.ok vs visited) := by
  cases fuel <;> rw [vrpGo] <;> rw [if_pos hall]

/-- With a demand list covering the locations and either a non-empty fleet
or a lone depot, the canonical loop run returns a normal result. -/
lemma vrpGo_canonical_ok {α : Type} [LinearOrderedCommRing α] (D : ℕ → ℕ → α)
    (dem : List α) (cap : α) (n numV : ℕ)
    (mc : (ℕ → ℕ → α) → Veh α → Veh α)
    (hn : 1 ≤ n) (hdem : n ≤ dem.length) (hnv : 1 ≤ numV ∨ n = 1) :
    ∃ fvs fvisited,
      vrpGo D dem cap n numV mc ((n - 1) + numV) (initVehicles numV)
        (initVisited n) 0 = some (.ok fvs fvisited) := by
  have hsome := vrpGo_terminates D dem cap n numV mc ((n - 1) + numV)
    (initVisited n) (initVehicles numV) 0
    (by rw [initVisited_count hn]; omega)
  cases hrun : vrpGo D dem cap n numV mc ((n - 1) + numV) (initVehicles numV)
      (initVisited n) 0 with
  | none => rw [hrun] at hsome; cases hsome
  | some out =>
    cases out with
    | ok fvs fvisited => exact ⟨fvs, fvisited, rfl⟩
    | idxErr =>
      exfalso
      rcases hnv with hnv | hnv
      · exact vrpGo_no_idxErr D dem cap n numV mc ((n - 1) + numV)
          (initVehicles numV) (initVisited n) 0 hnv (initVehicles_length numV) hrun
      · subst hnv
        have hall : (initVisited 1).all id = true := by
          simp [initVisited, List.replicate_succ]
        rw [vrpGo_all_visited D dem cap 1 numV mc _ _ _ _ hall] at hrun
        cases hrun
    | demErr =>
      exact absurd hrun (vrpGo_no_demErr D dem cap n numV mc hdem _ _ _ _)

/-- Inversion of a successful `simple_vrp` run: validation passed and the
result is the finished form of a loop-final state. -/
lemma simple_vrp_ok_elim {α : Type} [LinearOrderedCommRing α] [FloorRing α] [Div α]
    {D : ℕ → ℕ → α} {cities : List String} {demands : List α} {numV : ℕ}
    {cap : α} {res : SimpleVrpResult α}
    (h : simple_vrp_with_matrix D cities demands numV cap = .ok res) :
    cities.length = demands.length ∧ demands.head? = some 0 ∧
    1 ≤ cities.length ∧
    ∃ fvs fvisited,
      vrpGo D demands cap cities.length numV closeIfOpen
        ((cities.length - 1) + numV) (initVehicles numV)
        (initVisited cities.length) 0 = some (.ok fvs fvisited) ∧
      res.vehicles = (fvs.map (finishVeh D)).enum.map (toSVeh cities) := by
  unfold simple_vrp_with_matrix at h
  split at h
  · exact Except.noConfusion h
  · rename_i hlen
    split at h
    · exact Except.noConfusion h
    · rename_i d0 hd
      split at h
      · exact Except.noConfusion h
      · rename_i hd0
        have hd0z : d0 = 0 := not_not.mp hd0
        subst hd0z
        have hlen2 : cities.length = demands.length := not_not.mp hlen
        have hpos : 1 ≤ cities.length := by
          rw [hlen2]
          cases demands with
          | nil => cases hd
          | cons a t => simp
        split at h
        · exact Except.noConfusion h
        · exact Except.noConfusion h
        · exact Except.noConfusion h
        · rename_i fvs fvisited hrun
          refine ⟨hlen2, hd, hpos, fvs, fvisited, hrun, ?_⟩
          have hres := (Except.ok.inj h).symm
          rw [hres]

/-- Inversion of a successful `greedy_route_optimization` run. -/
lemma greedy_ok_elim {α : Type} [LinearOrderedCommRing α]
    {D : ℕ → ℕ → α} {locations : List String} {demands : List α} {numV : ℕ}
    {cap : α} {routes : List (Veh α)}
    (h : greedy_route_optimization_with_matrix D locations demands numV cap
      = .ok routes) :
    1 ≤ locations.length ∧
    ∃ fvs fvisited,
      vrpGo D demands cap locations.length numV closeAlways
        ((locations.length - 1) + numV) (initVehicles numV)
        (initVisited locations.length) 0 = some (.ok fvs fvisited) ∧
      routes = fvs.map (closeFinalApp D) := by
  unfold greedy_route_optimization_with_matrix at h
  split at h
  · exact Except.noConfusion h
  · rename_i hn
    split at h
    · exact Except.noConfusion h
    · exact Except.noConfusion h
    · exact Except.noConfusion h
    · rename_i fvs fvisited hrun
      exact ⟨by omega, fvs, fvisited, hrun, (Except.ok.inj h).symm⟩

/-- With validation passed and a usable fleet (or a lone depot),
`simple_vrp` returns a normal result rather than an error. -/
lemma simple_vrp_ok_of_valid {α : Type} [LinearOrderedCommRing α] [FloorRing α] [Div α]
    (D : ℕ → ℕ → α) {cities : List String} {demands : List α} {numV : ℕ}
    (cap : α) (hlen : cities.length = demands.length)
    (hd : demands.head? = some 0) (hnv : 1 ≤ numV ∨ cities.length = 1) :
    ∃ res, simple_vrp_with_matrix D cities demands numV cap = .ok res := by
  have hpos : 1 ≤ cities.length := by
    rw [hlen]
    cases demands with
    | nil => cases hd
    | cons a t => simp
  obtain ⟨fvs, fvisited, hrun⟩ :=
    vrpGo_canonical_ok D demands cap cities.length numV closeIfOpen hpos
      hlen.le hnv
  cases hres : simple_vrp_with_matrix D cities demands numV cap with
  | ok res => exact ⟨res, rfl⟩
  | error e =>
    exfalso
    unfold simple_vrp_with_matrix at hres
    rw [if_neg (fun hcon => hcon hlen)] at hres
    split at hres
    · rename_i heq
      rw [hd] at heq
      exact Option.noConfusion heq
    · rename_i d0 heq
      rw [hd] at heq
      have hd0 : (0 : α) = d0 := Option.some.inj heq
      rw [if_neg (by rw [← hd0]; simp)] at hres
      split at hres
      · rename_i heq2
        rw [hrun] at heq2
        exact Option.noConfusion heq2
      · rename_i heq2
        rw [hrun] at heq2
        exact VrpOut.noConfusion (Option.some.inj heq2)
      · rename_i heq2
        rw [hrun] at heq2
        exact VrpOut.noConfusion (Option.some.inj heq2)
      · exact Except.noConfusion hres

/-- The `app.py` analogue of `simple_vrp_ok_of_valid`.  Since `app.py`
validates nothing, the demand list covering the locations is here an
assumption rather than a consequence of validation: without it the scan
raises `IndexError` at `demands[i]`. -/
lemma greedy_ok_of_valid {α : Type} [LinearOrderedCommRing α] (D : ℕ → ℕ → α)
    {locations : List String} (demands : List α) {numV : ℕ} (cap : α)
    (hpos : 1 ≤ locations.length) (hdem : locations.length ≤ demands.length)
    (hnv : 1 ≤ numV ∨ locations.length = 1) :
    ∃ routes, greedy_route_optimization_with_matrix D locations demands numV cap
      = .ok routes := by
  obtain ⟨fvs, fvisited, hrun⟩ :=
    vrpGo_canonical_ok D demands cap locations.length numV closeAlways hpos
      hdem hnv
  cases hres : greedy_route_optimization_with_matrix D locations demands numV cap with
  | ok routes => exact ⟨routes, rfl⟩
  | error e =>
    exfalso
    unfold greedy_route_optimization_with_matrix at hres
    rw [if_neg (by omega)] at hres
    split at hres
    · rename_i heq2
      rw [hrun] at heq2
      exact Option.noConfusion heq2
    · rename_i heq2
      rw [hrun] at heq2
      exact VrpOut.noConfusion (Option.some.inj heq2)
    · rename_i heq2
      rw [hrun] at heq2
      exact VrpOut.noConfusion (Option.some.inj heq2)
    · exact Except.noConfusion hres

/-- The divergence `app.py`'s missing validation produces: with two
locations, one vehicle and a demand list of length 1, the first candidate
scan reads `demands[1]` out of range and the constructor raises
`IndexError` instead of returning a result. -/
lemma greedy_demands_idxErr_example :
    greedy_route_optimization_with_matrix (fun _ _ => (0 : ℤ)) ["a", "b"] [0] 1 1000
      = .error "IndexError: demands[i]" := rfl

lemma initVisited_all_false {n : ℕ} (h : 2 ≤ n) :
    (initVisited n).all id = false := by
  apply Bool.eq_false_iff.mpr
  intro hall
  rw [List.all_eq_true] at hall
  have h1 : (initVisited n)[1]? = some false := by
    unfold initVisited
    rw [List.getElem?_set_ne (by omega), List.getElem?_replicate, if_pos (by omega)]
  have hmem : false ∈ initVisited n := List.mem_iff_getElem?.mpr ⟨1, h1⟩
  have := hall false hmem
  simp at this

/-- With an empty fleet and at least one non-depot location, `simple_vrp`
hits `vehicles[current_vehicle]` out of range: no validation protects
`num_vehicles`. -/
lemma simple_vrp_idxErr {α : Type} [LinearOrderedCommRing α] [FloorRing α] [Div α]
    (D : ℕ → ℕ → α) {cities : List String} {demands : List α} (cap : α)
    (hlen : cities.length = demands.length) (hd : demands.head? = some 0)
    (hn2 : 2 ≤ cities.length) :
    simple_vrp_with_matrix D cities demands 0 cap
      = .error "IndexError: vehicles[current_vehicle]" := by
  have hrun : vrpGo D demands cap cities.length 0 closeIfOpen
      ((cities.length - 1) + 0) (initVehicles 0) (initVisited cities.length) 0
      = some .idxErr := by
    obtain ⟨m, hm⟩ : ∃ m, (cities.length - 1) + 0 = m + 1 :=
      ⟨cities.length - 2, by omega⟩
    rw [hm, vrpGo, if_neg (by rw [initVisited_all_false hn2]; simp)]
    rfl
  unfold simple_vrp_with_matrix
  rw [if_neg (fun hcon => hcon hlen)]
  split
  · rename_i heq
    rw [hd] at heq
    exact Option.noConfusion heq
  · rename_i d0 heq
    rw [hd] at heq
    have hd0 : (0 : α) = d0 := Option.some.inj heq
    rw [if_neg (by rw [← hd0]; simp)]
    rw [hrun]

lemma simple_vrp_err_len {α : Type} [LinearOrderedCommRing α] [FloorRing α] [Div α]
    (D : ℕ → ℕ → α) {cities : List String} {demands : List α} (numV : ℕ)
    (cap : α) (hlen : cities.length ≠ demands.length) :
    simple_vrp_with_matrix D cities demands numV cap
      = .error "Cities and demands must have same length" := by
  unfold simple_vrp_with_matrix
  rw [if_pos hlen]

lemma simple_vrp_err_empty {α : Type} [LinearOrderedCommRing α] [FloorRing α] [Div α]
    (D : ℕ → ℕ → α) {cities : List String} {demands : List α} (numV : ℕ)
    (cap : α) (hlen : cities.length = demands.length)
    (hd : demands.head? = none) :
    simple_vrp_with_matrix D cities demands numV cap
      = .error "IndexError: demands[0]" := by
  unfold simple_vrp_with_matrix
  rw [if_neg (fun hcon => hcon hlen)]
  split
  · rfl
  · rename_i d0 heq
    rw [hd] at heq
    exact Option.noConfusion heq

lemma simple_vrp_err_depot {α : Type} [LinearOrderedCommRing α] [FloorRing α] [Div α]
    (D : ℕ → ℕ → α) {cities : List String} {demands : List α} (numV : ℕ)
    (cap : α) {d0 : α} (hlen : cities.length = demands.length)
    (hd : demands.head? = some d0) (hd0 : d0 ≠ 0) :
    simple_vrp_with_matrix D cities demands numV cap
      = .error "Depot (first location) must have 0 demand" := by
  unfold simple_vrp_with_matrix
  rw [if_neg (fun hcon => hcon hlen)]
  split
  · rename_i heq
    rw [hd] at heq
    exact Option.noConfusion heq
  · rename_i d1 heq
    rw [hd] at heq
    have : d0 = d1 := Option.some.inj heq
    rw [if_pos (by rw [← this]; exact hd0)]

/-
Distance-layer lemmas: symmetry and the zero diagonal.
-/

lemma getD_map_range {β : Type} (n i : ℕ) (f : ℕ → β) (d : β) :
    ((List.range n).map f).getD i d = if i < n then f i else d := by
  rw [List.getD_eq_getElem?_getD, List.getElem?_map]
  by_cases h : i < n
  · rw [List.getElem?_range h, if_pos h]
    rfl
  · rw [if_neg h, List.getElem?_eq_none (by simpa using h)]
    rfl

/-- The haversine formula is symmetric in its two coordinates. -/
lemma haversine_symm (lat1 lon1 lat2 lon2 : ℝ) :
    haversine_distance lat1 lon1 lat2 lon2 = haversine_distance lat2 lon2 lat1 lon1 := by
  simp only [haversine_distance, radians]
  have hA : Real.sin ((lat2 - lat1) * Real.pi / 180 / 2) ^ 2 +
      Real.cos (lat1 * Real.pi / 180) * Real.cos (lat2 * Real.pi / 180) *
        Real.sin ((lon2 - lon1) * Real.pi / 180 / 2) ^ 2
      = Real.sin ((lat1 - lat2) * Real.pi / 180 / 2) ^ 2 +
      Real.cos (lat2 * Real.pi / 180) * Real.cos (lat1 * Real.pi / 180) *
        Real.sin ((lon1 - lon2) * Real.pi / 180 / 2) ^ 2 := by
    have h1 : (lat1 - lat2) * Real.pi / 180 / 2 = -((lat2 - lat1) * Real.pi / 180 / 2) := by
      ring
    have h2 : (lon1 - lon2) * Real.pi / 180 / 2 = -((lon2 - lon1) * Real.pi / 180 / 2) := by
      ring
    rw [h1, h2, Real.sin_neg, Real.sin_neg]
    ring
  rw [hA]

/-- The haversine distance from a point to itself is exactly zero. -/
lemma haversine_self (lat lon : ℝ) : haversine_distance lat lon lat lon = 0 := by
  simp only [haversine_distance, radians]
  have h1 : (lat - lat) * Real.pi / 180 / 2 = 0 := by ring
  have h2 : (lon - lon) * Real.pi / 180 / 2 = 0 := by ring
  rw [h1, h2, Real.sin_zero]
  have hA : (0 : ℝ) ^ 2 + Real.cos (lat * Real.pi / 180) *
      Real.cos (lat * Real.pi / 180) * 0 ^ 2 = 0 := by ring
  rw [hA, Real.sqrt_zero, sub_zero, Real.sqrt_one]
  have hat : atan2 0 1 = 0 := by
    unfold atan2
    rw [if_pos (by norm_num : (0:ℝ) < 1)]
    norm_num
  rw [hat]
  ring

/-- `round(0, 2) = 0` (over a field, in particular over `ℝ`). -/
lemma round2_zero {α : Type} [LinearOrderedField α] [FloorRing α] :
    round2 (0 : α) = 0 := by
  simp [round2]

lemma matEntry_routeopt (cities : List String) (i j : ℕ) :
    matEntry (RouteOpt.create_distance_matrix cities) i j
      = if i < cities.length ∧ j < cities.length then
          (if i = j then 0
           else
             match lookupCoord RouteOpt.PUNJAB_CITIES (pyLower (cities.getD i "")),
                   lookupCoord RouteOpt.PUNJAB_CITIES (pyLower (cities.getD j "")) with
             | some c1, some c2 =>
                 round2 (haversine_distance (c1.1 : ℝ) (c1.2 : ℝ) (c2.1 : ℝ) (c2.2 : ℝ))
             | _, _ => 50)
        else 0 := by
  unfold matEntry RouteOpt.create_distance_matrix
  rw [getD_map_range]
  by_cases hi : i < cities.length
  · rw [if_pos hi, getD_map_range]
    by_cases hj : j < cities.length
    · rw [if_pos hj, if_pos (And.intro hi hj)]
    · rw [if_neg hj, if_neg (fun h => hj h.2)]
  · rw [if_neg hi, if_neg (fun h => hi h.1)]
    simp

lemma matEntry_app (locations : List String) (i j : ℕ) :
    matEntry (App.create_distance_matrix locations) i j
      = if i < locations.length ∧ j < locations.length then
          (if i = j then 0
           else
             round2 (haversine_distance
               ((App.resolve (pyLower (locations.getD i ""))).1 : ℝ)
               ((App.resolve (pyLower (locations.getD i ""))).2 : ℝ)
               ((App.resolve (pyLower (locations.getD j ""))).1 : ℝ)
               ((App.resolve (pyLower (locations.getD j ""))).2 : ℝ)))
        else 0 := by
  unfold matEntry App.create_distance_matrix
  rw [getD_map_range]
  by_cases hi : i < locations.length
  · rw [if_pos hi, getD_map_range]
    by_cases hj : j < locations.length
    · rw [if_pos hj, if_pos (And.intro hi hj)]
    · rw [if_neg hj, if_neg (fun h => hj h.2)]
  · rw [if_neg hi, if_neg (fun h => hi h.1)]
    simp

lemma app_resolve_unknown {s : String}
    (h : ∀ p ∈ App.CITY_COORDINATES, p.1 ≠ s) :
    App.resolve s = App.depotCoordinate := by
  unfold App.resolve lookupCoord
  rw [List.find?_eq_none.mpr (by intro p hp; simpa using h p hp)]
  rfl

/-- Every vehicle of a state satisfying the invariant is either still open
or already closed. -/
lemma final_veh_facts {α : Type} [LinearOrderedCommRing α] {dem : List α}
    {cap : α} {n numV : ℕ} {fvs : List (Veh α)} {fvisited : List Bool} {c : ℕ}
    (hinv : LoopInv dem cap n numV fvs fvisited c) (i : ℕ) (v : Veh α)
    (hv : fvs[i]? = some v) :
    VehWF dem cap n v ∧ (0 ∉ v.stops.tail ∨ v.stops.getLast? = some 0) := by
  refine ⟨hinv.wf i v hv, ?_⟩
  by_cases hc : c ≤ i
  · exact Or.inl (hinv.openTail i v hc hv)
  · exact Or.inr (hinv.closedLast i v (by omega) hv)

lemma flatten_count_map_eq {α : Type} (fvs : List (Veh α)) (g : Veh α → Veh α)
    (j : ℕ) (hg : ∀ v ∈ fvs, ((g v).stops.count j) = v.stops.count j) :
    (((fvs.map g).map Veh.stops).flatten.count j)
      = ((fvs.map Veh.stops).flatten.count j) := by
  rw [List.count_flatten, List.count_flatten, List.map_map, List.map_map,
    List.map_map]
  refine congrArg List.sum (List.map_congr_left ?_)
  intro v hv
  exact hg v hv

lemma routes_map_toSVeh {α : Type} (cities : List String) (closed : List (Veh α)) :
    ((closed.enum).map (toSVeh cities)).map SVeh.route = closed.map Veh.stops := by
  rw [List.map_map]
  have h1 : (SVeh.route ∘ toSVeh (α := α) cities) = (Veh.stops ∘ Prod.snd) := rfl
  rw [h1, ← List.map_map, List.enum_map_snd]

/-- Destructure one entry of `simple_vrp`'s vehicle list back into the
loop-final state it was assembled from. -/
lemma simple_res_member {α : Type} [LinearOrderedCommRing α] [FloorRing α] [Div α]
    {D : ℕ → ℕ → α} {cities : List String} {fvs : List (Veh α)} {v : SVeh α}
    (hmem : v ∈ (fvs.map (finishVeh D)).enum.map (toSVeh cities)) :
    ∃ (k : ℕ) (w : Veh α), fvs[k]? = some w ∧
      v.route = (closeIfOpen D w).stops ∧ v.load = (closeIfOpen D w).load ∧
      v.distance = round2 (closeIfOpen D w).distance := by
  obtain ⟨p, hp, hv⟩ := List.mem_map.mp hmem
  obtain ⟨k, q⟩ := p
  have hpe := List.mem_enum_iff_getElem?.mp hp
  rw [List.getElem?_map] at hpe
  cases hw : fvs[k]? with
  | none => rw [hw] at hpe; cases hpe
  | some w =>
    rw [hw] at hpe
    have hfin : finishVeh D w = q := Option.some.inj hpe
    refine ⟨k, w, hw, ?_, ?_, ?_⟩ <;> rw [← hv, ← hfin] <;> rfl

/-- Destructure one entry of `greedy_route_optimization`'s result. -/
lemma app_res_member {α : Type} [LinearOrderedCommRing α]
    {D : ℕ → ℕ → α} {fvs : List (Veh α)} {v : Veh α}
    (hmem : v ∈ fvs.map (closeFinalApp D)) :
    ∃ (k : ℕ) (w : Veh α), fvs[k]? = some w ∧ v = closeFinalApp D w := by
  obtain ⟨w, hw, hv⟩ := List.mem_map.mp hmem
  obtain ⟨k, hk⟩ := List.mem_iff_getElem?.mp hw
  exact ⟨k, w, hk, hv.symm⟩

/-- Under the guarded closing of `simple_vrp`, a route is either still the
bare `[0]` or contains some non-depot stop: the depot is never appended to
a route that has not left the depot. -/
def NoAllZeroRoute {α : Type} (vs : List (Veh α)) : Prop :=
  ∀ (i : ℕ) (v : Veh α), vs[i]? = some v → v.stops = [0] ∨ ∃ j ∈ v.stops, j ≠ 0

lemma vrpGo_noAllZero {α : Type} [LinearOrderedCommRing α] {D : ℕ → ℕ → α}
    {dem : List α} {cap : α} {n numV fuel : ℕ} {fvs : List (Veh α)}
    {fvisited : List Bool}
    (hrun : vrpGo D dem cap n numV closeIfOpen fuel (initVehicles numV)
      (initVisited n) 0 = some (.ok fvs fvisited)) :
    NoAllZeroRoute fvs := by
  have h := vrpGo_inv D dem cap n numV closeIfOpen
    (fun vs _ _ => NoAllZeroRoute vs)
    (fun vs visited cursor v b d hP _ hv hsel => by
      intro i w hw
      obtain ⟨⟨hb1, _⟩, _, _, _⟩ := selectBest_eq_some hsel
      by_cases hi : i = cursor
      · subst hi
        rw [List.getElem?_set_eq (getElem?_some_lt hv)] at hw
        have hweq := (Option.some.inj hw).symm
        subst hweq
        exact Or.inr ⟨b, List.mem_append.mpr (Or.inr (by simp)), by omega⟩
      · rw [List.getElem?_set_ne (fun h2 => hi h2.symm)] at hw
        exact hP i w hw)
    (fun vs visited cursor v hP _ hv _ => by
      intro i w hw
      by_cases hi : i = cursor
      · subst hi
        rw [List.getElem?_set_eq (getElem?_some_lt hv)] at hw
        have hweq := (Option.some.inj hw).symm
        subst hweq
        rcases closeIfOpen_stops_cases D v with ⟨h2, heq⟩ | ⟨h2, heq⟩
        · rcases hP i v hv with h0 | ⟨j, hjmem, hjne⟩
          · exfalso
            rw [h0] at h2
            exact h2 rfl
          · rw [heq]
            exact Or.inr ⟨j, by
              show j ∈ v.stops ++ [0]
              exact List.mem_append.mpr (Or.inl hjmem), hjne⟩
        · rw [heq]
          exact hP i v hv
      · rw [List.getElem?_set_ne (fun h2 => hi h2.symm)] at hw
        exact hP i w hw)
    fuel _ _ _ fvs fvisited
    (by
      intro i w hw
      rw [initVehicles_elem hw]
      exact Or.inl rfl)
    hrun
  obtain ⟨c, hc⟩ := h
  exact hc

/-
Claim theorems.
-/

/-- C9: for all coordinate pairs the haversine distance is symmetric and
zero on identical coordinates, and consequently the distance matrix built
by `route_optimizer.create_distance_matrix` satisfies
`matrix[i][j] = matrix[j][i]` for all `i, j`, with an exactly zero
diagonal. -/
theorem c9_distance_symmetry_and_zero_diagonal :
    (∀ lat1 lon1 lat2 lon2 : ℝ,
      haversine_distance lat1 lon1 lat2 lon2
        = haversine_distance lat2 lon2 lat1 lon1) ∧
    (∀ lat lon : ℝ, haversine_distance lat lon lat lon = 0) ∧
    (∀ (cities : List String) (i j : ℕ),
      matEntry (RouteOpt.create_distance_matrix cities) i j
        = matEntry (RouteOpt.create_distance_matrix cities) j i) ∧
    (∀ (cities : List String) (i : ℕ),
      matEntry (RouteOpt.create_distance_matrix cities) i i = 0) := by
  refine ⟨haversine_symm, haversine_self, ?_, ?_⟩
  · intro cities i j
    rw [matEntry_routeopt, matEntry_routeopt]
    by_cases hb : i < cities.length ∧ j < cities.length
    · rw [if_pos hb, if_pos (And.intro hb.2 hb.1)]
      by_cases hij : i = j
      · rw [if_pos hij, if_pos hij.symm]
      · rw [if_neg hij, if_neg (fun h => hij h.symm)]
        rcases h1 : lookupCoord RouteOpt.PUNJAB_CITIES (pyLower (cities.getD i ""))
          with _ | c1 <;>
          rcases h2 : lookupCoord RouteOpt.PUNJAB_CITIES (pyLower (cities.getD j ""))
            with _ | c2
        · rfl
        · rfl
        · rfl
        · show round2 (haversine_distance (c1.1 : ℝ) (c1.2 : ℝ) (c2.1 : ℝ) (c2.2 : ℝ))
            = round2 (haversine_distance (c2.1 : ℝ) (c2.2 : ℝ) (c1.1 : ℝ) (c1.2 : ℝ))
          rw [haversine_symm]
    · rw [if_neg hb, if_neg (fun h => hb ⟨h.2, h.1⟩)]
  · intro cities i
    rw [matEntry_routeopt]
    by_cases hb : i < cities.length ∧ i < cities.length
    · rw [if_pos hb, if_pos rfl]
    · rw [if_neg hb]

/-- C6 counterexample: in `route_optimizer.create_distance_matrix` a pair
involving an unknown identifier gets the flat default `50.0`, not the
haversine distance through the depot-fallback coordinate.  Here the known
city is ludhiana, whose coordinate coincides with the depot fallback, so
the value claimed by the spec would be `round2 0 = 0`, while the code
produces `50`. -/
theorem c6_counterexample :
    matEntry (RouteOpt.create_distance_matrix ["ludhiana", "unknownville"]) 0 1 = 50 ∧
    round2 (haversine_distance
      ((App.resolve "ludhiana").1 : ℝ) ((App.resolve "ludhiana").2 : ℝ)
      (App.depotCoordinate.1 : ℝ) (App.depotCoordinate.2 : ℝ)) = 0 ∧
    (50 : ℝ) ≠ 0 := by
  refine ⟨?_, ?_, by norm_num⟩
  · rw [matEntry_routeopt,
      if_pos (And.intro (by norm_num) (by norm_num)), if_neg (by norm_num)]
    have h2 : lookupCoord RouteOpt.PUNJAB_CITIES
        (pyLower ((["ludhiana", "unknownville"] : List String).getD 1 ""))
        = none := rfl
    rw [h2]
    rcases lookupCoord RouteOpt.PUNJAB_CITIES
        (pyLower ((["ludhiana", "unknownville"] : List String).getD 0 ""))
      with _ | c
    · rfl
    · rfl
  · have hres : App.resolve "ludhiana" = App.depotCoordinate := rfl
    rw [hres, haversine_self, round2_zero]

/-- C6 amended: identifier resolution never fails in `app.py`: after
lowercasing, identifiers absent from `CITY_COORDINATES` resolve to the
depot coordinate, so every off-diagonal entry of `app.py`'s matrix whose
second identifier is unknown equals the haversine distance to the depot
fallback coordinate, rounded to 2 decimals.  (`route_optimizer.py`'s
matrix instead uses the flat default `50.0` for any pair involving an
unknown identifier — see the counterexample.) -/
theorem c6_amended_app_depot_fallback (locations : List String) (i j : ℕ)
    (hi : i < locations.length) (hj : j < locations.length) (hij : i ≠ j)
    (hunknown : ∀ p ∈ App.CITY_COORDINATES,
      p.1 ≠ pyLower (locations.getD j "")) :
    matEntry (App.create_distance_matrix locations) i j
      = round2 (haversine_distance
          ((App.resolve (pyLower (locations.getD i ""))).1 : ℝ)
          ((App.resolve (pyLower (locations.getD i ""))).2 : ℝ)
          (App.depotCoordinate.1 : ℝ) (App.depotCoordinate.2 : ℝ)) := by
  rw [matEntry_app, if_pos (And.intro hi hj), if_neg hij,
    app_resolve_unknown hunknown]

/-- Witness for the C6 amended theorem at a concrete input: the pair
(amritsar, zzz) with zzz unknown. -/
theorem c6_amended_witness :
    (0 < (["amritsar", "zzz"] : List String).length) ∧
    (1 < (["amritsar", "zzz"] : List String).length) ∧ (0 ≠ 1) ∧
    (∀ p ∈ App.CITY_COORDINATES,
      p.1 ≠ (pyLower ((["amritsar", "zzz"] : List String).getD 1 ""))) ∧
    matEntry (App.create_distance_matrix ["amritsar", "zzz"]) 0 1
      = round2 (haversine_distance
          ((App.resolve (pyLower ((["amritsar", "zzz"] : List String).getD 0 ""))).1 : ℝ)
          ((App.resolve (pyLower ((["amritsar", "zzz"] : List String).getD 0 ""))).2 : ℝ)
          (App.depotCoordinate.1 : ℝ) (App.depotCoordinate.2 : ℝ)) :=
  ⟨by decide, by decide, by decide, by decide,
    c6_amended_app_depot_fallback ["amritsar", "zzz"] 0 1 (by decide) (by decide)
      (by decide) (by decide)⟩

/-- C1: at each construction step where a location is assigned, the
location appended to the cursor vehicle's route is, among all unvisited
non-depot indices `i` with `load + demand[i] ≤ capacity`, one minimising
`matrix[cur][i]`, and the lowest such index among those attaining the
minimum (first encountered by the ascending scan); the loop then extends
exactly that vehicle's route by it, adds its demand and distance, and
marks it visited.  This covers both implementations, which share this
scan and assignment step.  The hypothesis `n ≤ dem.length` states that the
demand list covers the location indices: it holds in every run that
reaches an assignment step — `simple_vrp` validates the lengths equal, and
in `greedy_route_optimization` a shorter demand list makes the scan raise
`IndexError` (the `demErr` branch) before any location is ever assigned. -/
theorem c1_greedy_selection_step {α : Type} [LinearOrderedCommRing α]
    (D : ℕ → ℕ → α) (dem : List α) (cap : α) (n numV fuel : ℕ)
    (mc : (ℕ → ℕ → α) → Veh α → Veh α)
    (vs : List (Veh α)) (visited : List Bool) (cursor : ℕ)
    (v : Veh α) (b : ℕ) (d : α)
    (hdem : n ≤ dem.length)
    (hall : visited.all id = false)
    (hv : vs[cursor]? = some v)
    (hsel : selectBest D dem visited v.load cap (v.stops.getLastD 0) n
      = some (b, d)) :
    vrpGo D dem cap n numV mc (fuel + 1) vs visited cursor
      = vrpGo D dem cap n numV mc fuel
          (vs.set cursor ⟨v.stops ++ [b], v.load + dem.getD b 0, v.distance + d⟩)
          (visited.set b true) cursor ∧
    (1 ≤ b ∧ b < n) ∧
    visited.getD b true = false ∧ v.load + dem.getD b 0 ≤ cap ∧
    d = D (v.stops.getLastD 0) b ∧
    (∀ j, 1 ≤ j → j < n →
      visited.getD j true = false → v.load + dem.getD j 0 ≤ cap →
      D (v.stops.getLastD 0) b ≤ D (v.stops.getLastD 0) j ∧
        (D (v.stops.getLastD 0) j = D (v.stops.getLastD 0) b → b ≤ j)) := by
  obtain ⟨⟨hb1, hb2⟩, hfeas, hd, hmin⟩ := selectBest_eq_some hsel
  refine ⟨?_, ⟨hb1, hb2⟩, hfeas.1, hfeas.2, hd, ?_⟩
  · rw [vrpGo, if_neg (by rw [hall]; simp), hv]
    simp only
    rw [if_neg (by rw [demandOutOfRange_false visited hdem]; simp), hsel]
  · intro j h1 h2 h3 h4
    have hj := hmin j h1 h2 ⟨h3, h4⟩
    rw [hd] at hj
    exact hj

/-- Witness for C1 at a concrete state with a distance tie between
locations 1 and 2: the scan picks index 1, the lower index. -/
theorem c1_greedy_selection_step_witness :
    ((3 : ℕ) ≤ ([(0 : ℤ), 1, 1] : List ℤ).length) ∧
    (([true, false, false] : List Bool).all id = false) ∧
    (([(⟨[0], 0, 0⟩ : Veh ℤ)])[0]? = some ⟨[0], 0, 0⟩) ∧
    (selectBest (fun _ _ => (5 : ℤ)) [0, 1, 1] [true, false, false] 0 10
      ((⟨[0], 0, 0⟩ : Veh ℤ).stops.getLastD 0) 3 = some (1, 5)) ∧
    (vrpGo (fun _ _ => (5 : ℤ)) [0, 1, 1] 10 3 1 closeIfOpen 5
        [⟨[0], 0, 0⟩] [true, false, false] 0
      = vrpGo (fun _ _ => (5 : ℤ)) [0, 1, 1] 10 3 1 closeIfOpen 4
          ([(⟨[0], 0, 0⟩ : Veh ℤ)].set 0 ⟨[0] ++ [1], 0 + [(0 : ℤ), 1, 1].getD 1 0, 0 + 5⟩)
          ([true, false, false].set 1 true) 0 ∧
      (1 ≤ 1 ∧ 1 < 3) ∧
      ([true, false, false] : List Bool).getD 1 true = false ∧
      (0 : ℤ) + [(0 : ℤ), 1, 1].getD 1 0 ≤ 10 ∧
      (5 : ℤ) = (fun _ _ => (5 : ℤ)) ((⟨[0], 0, 0⟩ : Veh ℤ).stops.getLastD 0) 1 ∧
      (∀ j, 1 ≤ j → j < 3 →
        ([true, false, false] : List Bool).getD j true = false →
        (0 : ℤ) + [(0 : ℤ), 1, 1].getD j 0 ≤ 10 →
        (fun _ _ => (5 : ℤ)) ((⟨[0], 0, 0⟩ : Veh ℤ).stops.getLastD 0) 1
            ≤ (fun _ _ => (5 : ℤ)) ((⟨[0], 0, 0⟩ : Veh ℤ).stops.getLastD 0) j ∧
          ((fun _ _ => (5 : ℤ)) ((⟨[0], 0, 0⟩ : Veh ℤ).stops.getLastD 0) j
              = (fun _ _ => (5 : ℤ)) ((⟨[0], 0, 0⟩ : Veh ℤ).stops.getLastD 0) 1 →
            1 ≤ j))) :=
  ⟨by decide, by decide, by decide, by decide,
    c1_greedy_selection_step (fun _ _ => (5 : ℤ)) [0, 1, 1] 10 3 1 4 closeIfOpen
      [⟨[0], 0, 0⟩] [true, false, false] 0 ⟨[0], 0, 0⟩ 1 5
      (by decide) (by decide) (by decide) (by decide)⟩

/-- C8 counterexample: the outer loop can need more than `n` iterations.
With `n = 2` locations, 3 vehicles and a demand that fits no vehicle, the
pass needs 3 iterations (one fruitless scan per vehicle): with fuel `n = 2`
the loop has not finished. -/
theorem c8_counterexample :
    vrpGo (fun _ _ => (1 : ℤ)) [0, 2000] 1000 2 3 closeIfOpen 2
      (initVehicles 3) (initVisited 2) 0 = none := by decide

/-- C8 amended: the construction pass always terminates, and
`(n - 1) + num_vehicles` iterations always suffice — each iteration either
marks a previously unvisited location visited (at most `n - 1` of those)
or advances the vehicle cursor (at most `num_vehicles` of those).  The
claimed bound of `n` iterations alone is refuted by `c8_counterexample`. -/
theorem c8_amended_termination_bound {α : Type} [LinearOrderedCommRing α]
    (D : ℕ → ℕ → α) (dem : List α) (cap : α) (n numV : ℕ)
    (mc : (ℕ → ℕ → α) → Veh α → Veh α) :
    (vrpGo D dem cap n numV mc ((n - 1) + numV) (initVehicles numV)
      (initVisited n) 0).isSome = true := by
  apply vrpGo_terminates
  have hcount : (initVisited n).count false ≤ n - 1 := by
    by_cases hn : 1 ≤ n
    · rw [initVisited_count hn]
    · have : n = 0 := by omega
      subst this
      simp [initVisited]
  omega

/-- C10: in every constructed route, of both implementations, the depot
index 0 is the first element, never occurs strictly inside the route, and
when the route has more than one element its last element is the depot. -/
theorem c10_depot_only_at_route_ends {α : Type} [LinearOrderedCommRing α]
    [FloorRing α] [Div α] (D : ℕ → ℕ → α) (cities locations : List String)
    (demands : List α) (numV : ℕ) (cap : α) :
    (∀ res, simple_vrp_with_matrix D cities demands numV cap = .ok res →
      ∀ v ∈ res.vehicles, v.route.head? = some 0 ∧
        0 ∉ v.route.tail.dropLast ∧
        (1 < v.route.length → v.route.getLast? = some 0)) ∧
    (∀ routes,
      greedy_route_optimization_with_matrix D locations demands numV cap
        = .ok routes →
      ∀ v ∈ routes, v.stops.head? = some 0 ∧
        0 ∉ v.stops.tail.dropLast ∧
        (1 < v.stops.length → v.stops.getLast? = some 0)) := by
  constructor
  · intro res h v hv
    obtain ⟨hlen, hd, hpos, fvs, fvisited, hrun, hveh⟩ := simple_vrp_ok_elim h
    obtain ⟨c, hinv⟩ := vrpGo_loopInv closeIfOpen_ok hpos hrun
    rw [hveh] at hv
    obtain ⟨k, w, hw, hroute, hload, hdist⟩ := simple_res_member hv
    obtain ⟨hwf, horc⟩ := final_veh_facts hinv k w hw
    have hf := closeIfOpen_final_facts (D := D) hwf horc
    rw [hroute]
    exact ⟨hf.head0, hf.inner, hf.lastIsDepot⟩
  · intro routes h v hv
    obtain ⟨hpos, fvs, fvisited, hrun, hroutes⟩ := greedy_ok_elim h
    obtain ⟨c, hinv⟩ := vrpGo_loopInv closeAlways_ok hpos hrun
    rw [hroutes] at hv
    obtain ⟨k, w, hw, hv2⟩ := app_res_member hv
    obtain ⟨hwf, horc⟩ := final_veh_facts hinv k w hw
    have hf := closeFinalApp_final_facts (D := D) hwf horc
    rw [hv2]
    exact ⟨hf.head0, hf.inner, hf.lastIsDepot⟩

/-- Witness for C10 at a concrete run: one vehicle, two locations, final
route `[0, 1, 0]`. -/
theorem c10_depot_only_at_route_ends_witness :
    (([0, 1, 0] : List ℕ).head? = some 0) ∧
    0 ∉ ([0, 1, 0] : List ℕ).tail.dropLast ∧
    (1 < ([0, 1, 0] : List ℕ).length → ([0, 1, 0] : List ℕ).getLast? = some 0) :=
  (c10_depot_only_at_route_ends (fun _ _ => (1 : ℤ)) ["d", "x"] ["d", "x"]
      [0, 5] 1 100).1
    ⟨[⟨1, [0, 1, 0], 5, 2, ["Depot", "x", "Depot"]⟩], 2, fun _ _ => (1 : ℤ)⟩ rfl
    ⟨1, [0, 1, 0], 5, 2, ["Depot", "x", "Depot"]⟩ (by decide)

/-- C4: in both implementations, every constructed route's load equals the
sum of the demands of its stops excluding the depot, and (for the
non-negative capacities of valid inputs) never exceeds the vehicle
capacity. -/
theorem c4_route_load_equals_demand_sum {α : Type} [LinearOrderedCommRing α]
    [FloorRing α] [Div α] (D : ℕ → ℕ → α) (cities locations : List String)
    (demands : List α) (numV : ℕ) (cap : α) (hcap : 0 ≤ cap) :
    (∀ res, simple_vrp_with_matrix D cities demands numV cap = .ok res →
      ∀ v ∈ res.vehicles,
        v.load = ((v.route.filter fun i => i != 0).map
          fun i => demands.getD i 0).sum ∧ v.load ≤ cap) ∧
    (∀ routes,
      greedy_route_optimization_with_matrix D locations demands numV cap
        = .ok routes →
      ∀ v ∈ routes,
        v.load = ((v.stops.filter fun i => i != 0).map
          fun i => demands.getD i 0).sum ∧ v.load ≤ cap) := by
  constructor
  · intro res h v hv
    obtain ⟨hlen, hd, hpos, fvs, fvisited, hrun, hveh⟩ := simple_vrp_ok_elim h
    obtain ⟨c, hinv⟩ := vrpGo_loopInv closeIfOpen_ok hpos hrun
    rw [hveh] at hv
    obtain ⟨k, w, hw, hroute, hload, hdist⟩ := simple_res_member hv
    obtain ⟨hwf, horc⟩ := final_veh_facts hinv k w hw
    have hf := closeIfOpen_final_facts (D := D) hwf horc
    constructor
    · have hfil : (v.route.filter fun i => i != 0)
          = (w.stops.filter fun i => i != 0) := by
        rw [hroute]
        rcases hf.stops_or with h2 | h2 <;> rw [h2]
        rw [List.filter_append]
        simp
      rw [hfil, hload, hf.load]
      exact hwf.load_eq
    · rw [hload, hf.load]
      rcases hwf.load_le with h2 | h2
      · exact h2
      · rw [h2]; exact hcap
  · intro routes h v hv
    obtain ⟨hpos, fvs, fvisited, hrun, hroutes⟩ := greedy_ok_elim h
    obtain ⟨c, hinv⟩ := vrpGo_loopInv closeAlways_ok hpos hrun
    rw [hroutes] at hv
    obtain ⟨k, w, hw, hv2⟩ := app_res_member hv
    obtain ⟨hwf, horc⟩ := final_veh_facts hinv k w hw
    have hf := closeFinalApp_final_facts (D := D) hwf horc
    constructor
    · have hfil : (v.stops.filter fun i => i != 0)
          = (w.stops.filter fun i => i != 0) := by
        rw [hv2]
        rcases hf.stops_or with h2 | h2 <;> rw [h2]
        rw [List.filter_append]
        simp
      rw [hfil, hv2, hf.load]
      exact hwf.load_eq
    · rw [hv2, hf.load]
      rcases hwf.load_le with h2 | h2
      · exact h2
      · rw [h2]; exact hcap

/-- Witness for C4 at a concrete run over `ℤ` (one vehicle takes location
1 with demand 5; its load is 5 = sum of non-depot demands ≤ 100). -/
theorem c4_route_load_equals_demand_sum_witness :
    ((0 : ℤ) ≤ 100) ∧
    ((∀ res, simple_vrp_with_matrix (fun _ _ => (1 : ℤ)) ["d", "x"] [0, 5] 1 100
        = .ok res →
      ∀ v ∈ res.vehicles,
        v.load = ((v.route.filter fun i => i != 0).map
          fun i => [(0 : ℤ), 5].getD i 0).sum ∧ v.load ≤ 100) ∧
    (∀ routes,
      greedy_route_optimization_with_matrix (fun _ _ => (1 : ℤ)) ["d", "x"]
        [0, 5] 1 100 = .ok routes →
      ∀ v ∈ routes,
        v.load = ((v.stops.filter fun i => i != 0).map
          fun i => [(0 : ℤ), 5].getD i 0).sum ∧ v.load ≤ 100)) :=
  ⟨by decide,
    c4_route_load_equals_demand_sum (fun _ _ => (1 : ℤ)) ["d", "x"] ["d", "x"]
      [0, 5] 1 100 (by decide)⟩

/-- C3 counterexample: the depot index 0 appears in every vehicle's route,
so with two vehicles it appears in two routes — not "exactly one route or
the unassigned list".  (The returned result carries no unassigned list at
all; see also C2.) -/
theorem c3_counterexample :
    ∃ res, simple_vrp_with_matrix (fun _ _ => (1 : ℤ)) ["d"] [0] 2 100
        = .ok res ∧
      (res.vehicles.map SVeh.route).flatten.count 0 = 2 ∧
      ¬((res.vehicles.map SVeh.route).flatten.count 0 = 1 ∨
        (res.vehicles.map SVeh.route).flatten.count 0 = 0) :=
  ⟨_, rfl, by decide, by decide⟩

/-- C3 amended: every non-depot location index appears at most once across
all constructed routes — exactly once when it was assigned and zero times
when it was left unassigned — and the depot index 0 heads every route.
This holds for both implementations. -/
theorem c3_amended_coverage {α : Type} [LinearOrderedCommRing α]
    [FloorRing α] [Div α] (D : ℕ → ℕ → α) (cities locations : List String)
    (demands : List α) (numV : ℕ) (cap : α) :
    (∀ res, simple_vrp_with_matrix D cities demands numV cap = .ok res →
      (∀ j : ℕ, j ≠ 0 →
        (res.vehicles.map SVeh.route).flatten.count j = 1 ∨
        (res.vehicles.map SVeh.route).flatten.count j = 0) ∧
      (∀ v ∈ res.vehicles, v.route.head? = some 0)) ∧
    (∀ routes,
      greedy_route_optimization_with_matrix D locations demands numV cap
        = .ok routes →
      (∀ j : ℕ, j ≠ 0 →
        (routes.map Veh.stops).flatten.count j = 1 ∨
        (routes.map Veh.stops).flatten.count j = 0) ∧
      (∀ v ∈ routes, v.stops.head? = some 0)) := by
  constructor
  · intro res h
    obtain ⟨hlen, hd, hpos, fvs, fvisited, hrun, hveh⟩ := simple_vrp_ok_elim h
    obtain ⟨c, hinv⟩ := vrpGo_loopInv closeIfOpen_ok hpos hrun
    constructor
    · intro j hj
      have hg : ∀ w ∈ fvs, ((finishVeh D w).stops.count j) = w.stops.count j := by
        intro w hwmem
        obtain ⟨k, hk⟩ := List.mem_iff_getElem?.mp hwmem
        obtain ⟨hwf, horc⟩ := final_veh_facts hinv k w hk
        have hf := closeIfOpen_final_facts (D := D) hwf horc
        show (closeIfOpen D w).stops.count j = w.stops.count j
        rcases hf.stops_or with h2 | h2 <;> rw [h2]
        rw [List.count_append]
        have hz : List.count j [0] = 0 := by
          simp [List.count_cons]
          omega
        omega
      rw [hveh, routes_map_toSVeh, flatten_count_map_eq fvs (finishVeh D) j hg,
        hinv.countEq j (Nat.pos_of_ne_zero hj)]
      by_cases hvis : fvisited.getD j false = true
      · left; rw [if_pos hvis]
      · right; rw [if_neg hvis]
    · intro v hv
      rw [hveh] at hv
      obtain ⟨k, w, hw, hroute, hload, hdist⟩ := simple_res_member hv
      obtain ⟨hwf, horc⟩ := final_veh_facts hinv k w hw
      have hf := closeIfOpen_final_facts (D := D) hwf horc
      rw [hroute]
      exact hf.head0
  · intro routes h
    obtain ⟨hpos, fvs, fvisited, hrun, hroutes⟩ := greedy_ok_elim h
    obtain ⟨c, hinv⟩ := vrpGo_loopInv closeAlways_ok hpos hrun
    constructor
    · intro j hj
      have hg : ∀ w ∈ fvs, ((closeFinalApp D w).stops.count j)
          = w.stops.count j := by
        intro w hwmem
        obtain ⟨k, hk⟩ := List.mem_iff_getElem?.mp hwmem
        obtain ⟨hwf, horc⟩ := final_veh_facts hinv k w hk
        have hf := closeFinalApp_final_facts (D := D) hwf horc
        rcases hf.stops_or with h2 | h2 <;> rw [h2]
        rw [List.count_append]
        have hz : List.count j [0] = 0 := by
          simp [List.count_cons]
          omega
        omega
      rw [hroutes, flatten_count_map_eq fvs (closeFinalApp D) j hg,
        hinv.countEq j (Nat.pos_of_ne_zero hj)]
      by_cases hvis : fvisited.getD j false = true
      · left; rw [if_pos hvis]
      · right; rw [if_neg hvis]
    · intro v hv
      rw [hroutes] at hv
      obtain ⟨k, w, hw, hv2⟩ := app_res_member hv
      obtain ⟨hwf, horc⟩ := final_veh_facts hinv k w hw
      have hf := closeFinalApp_final_facts (D := D) hwf horc
      rw [hv2]
      exact hf.head0

/-- Witness for C3 amended at a concrete run: location 1 appears exactly
once across the routes of the one-vehicle result, and the route heads at
the depot. -/
theorem c3_amended_coverage_witness :
    ((([⟨1, [0, 1, 0], 5, 2, ["Depot", "x", "Depot"]⟩] : List (SVeh ℤ)).map
        SVeh.route).flatten.count 1 = 1 ∨
     (([⟨1, [0, 1, 0], 5, 2, ["Depot", "x", "Depot"]⟩] : List (SVeh ℤ)).map
        SVeh.route).flatten.count 1 = 0) ∧
    ([0, 1, 0] : List ℕ).head? = some 0 := by
  have h := (c3_amended_coverage (fun _ _ => (1 : ℤ)) ["d", "x"] ["d", "x"]
      [0, 5] 1 100).1
    ⟨[⟨1, [0, 1, 0], 5, 2, ["Depot", "x", "Depot"]⟩], 2, fun _ _ => (1 : ℤ)⟩ rfl
  exact ⟨h.1 1 (by decide),
    h.2 ⟨1, [0, 1, 0], 5, 2, ["Depot", "x", "Depot"]⟩ (by decide)⟩

/-- C7 counterexample: in `greedy_route_optimization` a vehicle reached by
the cursor with no feasible candidate gets the depot appended
unconditionally: with one vehicle and one oversized demand the vehicle is
assigned no stop, yet finishes with stops `[0, 0]`, not `[0]`. -/
theorem c7_counterexample :
    greedy_route_optimization_with_matrix (fun _ _ => (0 : ℤ)) ["a", "b"]
      [0, 2000] 1 1000 = .ok [⟨[0, 0], 0, 0⟩] ∧
    (∀ j ∈ ([0, 0] : List ℕ), j = 0) ∧ ([0, 0] : List ℕ) ≠ [0] :=
  ⟨rfl, by decide, by decide⟩

/-- C7 amended: in `simple_vrp` (whose route closing is guarded by
`route[-1] != 0`), a vehicle to which no stop is ever assigned finishes
with route exactly `[0]`, zero load and zero distance.  In
`greedy_route_optimization` the mid-loop closing is unconditional and a
cursor-visited unused vehicle finishes as `[0, 0]` instead — see the
counterexample. -/
theorem c7_amended_unused_vehicle_route {α : Type} [LinearOrderedCommRing α]
    [FloorRing α] [Div α] (D : ℕ → ℕ → α) (cities : List String)
    (demands : List α) (numV : ℕ) (cap : α)
    (hzero : round2 (0 : α) = 0) :
    ∀ res, simple_vrp_with_matrix D cities demands numV cap = .ok res →
      ∀ v ∈ res.vehicles, (∀ j ∈ v.route, j = 0) →
        v.route = [0] ∧ v.load = 0 ∧ v.distance = 0 := by
  intro res h v hv hall
  obtain ⟨hlen, hd, hpos, fvs, fvisited, hrun, hveh⟩ := simple_vrp_ok_elim h
  have hnz := vrpGo_noAllZero hrun
  obtain ⟨c, hinv⟩ := vrpGo_loopInv closeIfOpen_ok hpos hrun
  rw [hveh] at hv
  obtain ⟨k, w, hw, hroute, hload, hdist⟩ := simple_res_member hv
  obtain ⟨hwf, horc⟩ := final_veh_facts hinv k w hw
  have hf := closeIfOpen_final_facts (D := D) hwf horc
  have hwstops : w.stops = [0] := by
    rcases hnz k w hw with h0 | ⟨j, hjmem, hjne⟩
    · exact h0
    · exfalso
      have hjv : j ∈ v.route := by
        rw [hroute]
        rcases hf.stops_or with h2 | h2 <;> rw [h2]
        · exact hjmem
        · exact List.mem_append.mpr (Or.inl hjmem)
      exact hjne (hall j hjv)
  have hclose_id : closeIfOpen D w = w := by
    rcases closeIfOpen_stops_cases D w with ⟨h2, heq⟩ | ⟨h2, heq⟩
    · exfalso
      rw [hwstops] at h2
      exact h2 rfl
    · exact heq
  have huntouched := hwf.untouched hwstops
  refine ⟨?_, ?_, ?_⟩
  · rw [hroute, hclose_id, hwstops]
  · rw [hload, hclose_id, huntouched.1]
  · rw [hdist, hclose_id, huntouched.2, hzero]

/-- Witness for C7 amended at a concrete run with two vehicles, the second
of which is never assigned a stop and finishes as `[0]` with zero load and
distance. -/
theorem c7_amended_unused_vehicle_route_witness :
    (round2 (0 : ℤ) = 0) ∧
    (([0] : List ℕ) = [0] ∧ (0 : ℤ) = 0 ∧ (0 : ℤ) = 0) := by
  have hres : simple_vrp_with_matrix (fun _ _ => (1 : ℤ)) ["d", "x"] [0, 5] 2 100
      = .ok ⟨[⟨1, [0, 1, 0], 5, 2, ["Depot", "x", "Depot"]⟩,
          ⟨2, [0], 0, 0, ["Depot"]⟩], 2, fun _ _ => (1 : ℤ)⟩ := rfl
  exact ⟨by decide,
    c7_amended_unused_vehicle_route (fun _ _ => (1 : ℤ)) ["d", "x"] [0, 5] 2 100
      (by decide) _ hres ⟨2, [0], 0, 0, ["Depot"]⟩ (by decide) (by decide)⟩

/-- C2 counterexample: with capacity 100, a single non-depot location of
demand 250 and one vehicle, the constructor returns a result whose only
route is the bare depot and which contains no record of location 1 — the
result dict (`vehicles`, `total_distance`, `distance_matrix`) has no
unassigned list; the location is only reported by a printed warning. -/
theorem c2_counterexample :
    simple_vrp_with_matrix (fun _ _ => (50 : ℤ)) ["depot", "faraway"] [0, 250] 1 100
      = .ok ⟨[⟨1, [0], 0, 0, ["Depot"]⟩], 0, fun _ _ => (50 : ℤ)⟩ ∧
    (∀ v ∈ ([⟨1, [0], 0, 0, ["Depot"]⟩] : List (SVeh ℤ)), 1 ∉ v.route) :=
  ⟨rfl, by decide⟩

/-- C2 amended: when fleet capacity cannot cover all demand the
constructors do not raise — both return a normal result containing the
routes they could build (unassigned locations are identifiable only by
their absence from every route, cf. C3; no explicit unassigned list is
part of the returned value).  For `simple_vrp` this needs validation
passed and a non-empty fleet; for `greedy_route_optimization`, which
validates nothing but reads `demands[i]` for every location index, it
additionally needs the demand list to cover the locations — with a shorter
demand list the scan raises `IndexError` regardless of capacity (see
`greedy_demands_idxErr_example`). -/
theorem c2_amended_no_hard_failure {α : Type}
    [LinearOrderedCommRing α] [FloorRing α] [Div α] (D : ℕ → ℕ → α)
    (cities locations : List String) (demands : List α) (numV : ℕ) (cap : α)
    (hlen : cities.length = demands.length) (hd : demands.head? = some 0)
    (hnv : 1 ≤ numV) (hloc : 1 ≤ locations.length)
    (hldem : locations.length ≤ demands.length) :
    (∃ res, simple_vrp_with_matrix D cities demands numV cap = .ok res) ∧
    (∃ routes,
      greedy_route_optimization_with_matrix D locations demands numV cap
        = .ok routes) :=
  ⟨simple_vrp_ok_of_valid D cap hlen hd (Or.inl hnv),
   greedy_ok_of_valid D demands cap hloc hldem (Or.inl hnv)⟩

/-- Witness for C2 amended at the infeasible scenario itself
(capacity 100, demand 250, one vehicle): both constructors still return a
normal result. -/
theorem c2_amended_no_hard_failure_witness :
    ((["depot", "faraway"] : List String).length = ([0, 250] : List ℤ).length) ∧
    (([0, 250] : List ℤ).head? = some 0) ∧ (1 ≤ 1) ∧
    (1 ≤ (["depot", "faraway"] : List String).length) ∧
    ((["depot", "faraway"] : List String).length ≤ ([0, 250] : List ℤ).length) ∧
    ((∃ res, simple_vrp_with_matrix (fun _ _ => (50 : ℤ)) ["depot", "faraway"]
        [0, 250] 1 100 = .ok res) ∧
     (∃ routes, greedy_route_optimization_with_matrix (fun _ _ => (50 : ℤ))
        ["depot", "faraway"] [0, 250] 1 100 = .ok routes)) :=
  ⟨by decide, by decide, by decide, by decide, by decide,
    c2_amended_no_hard_failure (fun _ _ => (50 : ℤ))
      ["depot", "faraway"] ["depot", "faraway"] [0, 250] 1 100
      (by decide) (by decide) (by decide) (by decide) (by decide)⟩

/-- C5 counterexample: `num_vehicles = 0` (representing any non-positive
vehicle count) passes unvalidated: with a lone depot the constructor
returns a normal empty result instead of signalling a validation error. -/
theorem c5_counterexample :
    simple_vrp_with_matrix (fun _ _ => (0 : ℤ)) ["x"] [0] 0 1000
      = .ok ⟨[], 0, fun _ _ => (0 : ℤ)⟩ ∧
    ∀ e, simple_vrp_with_matrix (fun _ _ => (0 : ℤ)) ["x"] [0] 0 1000
      ≠ .error e :=
  ⟨rfl, fun e h => Except.noConfusion
    (show (Except.ok ⟨[], 0, fun _ _ => (0 : ℤ)⟩ :
      Except String (SimpleVrpResult ℤ)) = .error e from h)⟩

/-- C5 amended: `simple_vrp` signals an error exactly when the list
lengths differ, or the demand list is empty (`demands[0]` raises
IndexError), or the depot demand is non-zero — these three before any
construction — or, at construction time, when the fleet is empty while a
non-depot location exists (`vehicles[0]` raises IndexError).  A
non-positive vehicle count as such is never validated, and
`greedy_route_optimization` performs no validation at all. -/
theorem c5_amended_error_characterisation {α : Type} [LinearOrderedCommRing α]
    [FloorRing α] [Div α] (D : ℕ → ℕ → α) (cities : List String)
    (demands : List α) (numV : ℕ) (cap : α) :
    (∃ e, simple_vrp_with_matrix D cities demands numV cap = .error e) ↔
    (cities.length ≠ demands.length ∨ demands.head? = none ∨
     (∃ d0, demands.head? = some d0 ∧ d0 ≠ 0) ∨
     (numV = 0 ∧ 2 ≤ cities.length)) := by
  constructor
  · rintro ⟨e, he⟩
    by_contra hnot
    push_neg at hnot
    obtain ⟨h1, h2, h3, h4⟩ := hnot
    have hlen : cities.length = demands.length := h1
    cases hdem : demands.head? with
    | none => exact h2 hdem
    | some d0 =>
      have hd0 : d0 = 0 := by
        by_contra hne
        exact hne (h3 d0 hdem)
      subst hd0
      have hnv : 1 ≤ numV ∨ cities.length = 1 := by
        by_cases hz : numV = 0
        · right
          have hge1 : 1 ≤ cities.length := by
            rw [hlen]
            cases demands with
            | nil => cases hdem
            | cons a t => simp
          have := h4 hz
          omega
        · left
          omega
      obtain ⟨res, hres⟩ := simple_vrp_ok_of_valid D cap hlen hdem hnv
      rw [hres] at he
      cases he
  · intro h
    rcases h with h | h | ⟨d0, hd, hd0⟩ | ⟨hz, hn2⟩
    · exact ⟨_, simple_vrp_err_len D numV cap h⟩
    · by_cases hlen : cities.length = demands.length
      · exact ⟨_, simple_vrp_err_empty D numV cap hlen h⟩
      · exact ⟨_, simple_vrp_err_len D numV cap hlen⟩
    · by_cases hlen : cities.length = demands.length
      · exact ⟨_, simple_vrp_err_depot D numV cap hlen hd hd0⟩
      · exact ⟨_, simple_vrp_err_len D numV cap hlen⟩
    · subst hz
      by_cases hlen : cities.length = demands.length
      · cases hdem : demands.head? with
        | none => exact ⟨_, simple_vrp_err_empty D 0 cap hlen hdem⟩
        | some d0 =>
          by_cases hd0 : d0 = 0
          · subst hd0
            exact ⟨_, simple_vrp_idxErr D cap hlen hdem hn2⟩
          · exact ⟨_, simple_vrp_err_depot D 0 cap hlen hdem hd0⟩
      · exact ⟨_, simple_vrp_err_len D 0 cap hlen⟩
